import Mathlib

/-
  Verification development for the consistency checker in
  scripts/check_consistency.py of the heurema/emporium repository.

  The program is embedded shallowly: JSON values loaded from disk become an
  inductive type Json; the Python dynamic operations used by the checker
  (attribute access .get, subscripting, membership tests, iteration,
  truthiness) become executable functions returning Except PyErr, so that a
  KeyError / TypeError / AttributeError raised by the script appears as an
  error value.  Each check_* function of the script is translated line by
  line into a function from the loaded structures to Except PyErr
  (List Finding).  Filesystem facts that the script queries (path existence,
  directory-ness, canonical path resolution) are oracle parameters, since the
  script only ever branches on their boolean or equality results.

  Loader behaviour (load_json and friends) is represented by passing the
  loaded results directly: a missing file is Option.none, a present file is
  some of its parsed value.  Malformed files abort the run before any rule
  executes and are outside every modelled code path.
-/

/-- Values produced by json.loads: null, booleans, numbers, strings, arrays
and objects.  Numbers are modelled as integers; the checker never computes
with numbers, it only tests truthiness and equality, and no claim involves a
fractional literal. -/
inductive Json where
  | null
  | bool (b : Bool)
  | num (n : Int)
  | str (s : String)
  | arr (xs : List Json)
  | obj (kvs : List (String × Json))
deriving Repr

mutual

/-- Structural boolean equality on Json values. -/
def Json.beq : Json → Json → Bool
  | .null, .null => true
  | .bool a, .bool b => a == b
  | .num a, .num b => a == b
  | .str a, .str b => a == b
  | .arr xs, .arr ys => Json.beqL xs ys
  | .obj xs, .obj ys => Json.beqKV xs ys
  | _, _ => false

/-- Structural boolean equality on Json lists. -/
def Json.beqL : List Json → List Json → Bool
  | [], [] => true
  | x :: xs, y :: ys => Json.beq x y && Json.beqL xs ys
  | _, _ => false

/-- Structural boolean equality on Json key-value lists. -/
def Json.beqKV : List (String × Json) → List (String × Json) → Bool
  | [], [] => true
  | (k, v) :: xs, (k2, v2) :: ys => k == k2 && Json.beq v v2 && Json.beqKV xs ys
  | _, _ => false

end

mutual

theorem Json.beq_iff : ∀ a b : Json, Json.beq a b = true ↔ a = b
  | .null, b => by cases b <;> simp [Json.beq]
  | .bool a, b => by cases b <;> simp [Json.beq]
  | .num a, b => by cases b <;> simp [Json.beq]
  | .str a, b => by cases b <;> simp [Json.beq]
  | .arr xs, b => by
      cases b <;> simp [Json.beq, Json.beqL_iff xs]
  | .obj xs, b => by
      cases b <;> simp [Json.beq, Json.beqKV_iff xs]

theorem Json.beqL_iff : ∀ xs ys : List Json, Json.beqL xs ys = true ↔ xs = ys
  | [], ys => by cases ys <;> simp [Json.beqL]
  | x :: xs, ys => by
      cases ys with
      | nil => simp [Json.beqL]
      | cons y ys => simp [Json.beqL, Json.beq_iff x y, Json.beqL_iff xs ys]

theorem Json.beqKV_iff : ∀ xs ys : List (String × Json), Json.beqKV xs ys = true ↔ xs = ys
  | [], ys => by cases ys <;> simp [Json.beqKV]
  | (k, v) :: xs, ys => by
      cases ys with
      | nil => simp [Json.beqKV]
      | cons y ys =>
          obtain ⟨k2, v2⟩ := y
          simp [Json.beqKV, Json.beq_iff v v2, Json.beqKV_iff xs ys]

end

instance : DecidableEq Json := fun a b =>
  decidable_of_iff (Json.beq a b = true) (Json.beq_iff a b)

/-- Python truthiness of a parsed JSON value: None, False, 0, empty string,
empty list and empty dict are falsy, everything else is truthy. -/
def Json.truthy : Json → Bool
  | .null => false
  | .bool b => b
  | .num n => n != 0
  | .str s => s ≠ ""
  | .arr xs => !xs.isEmpty
  | .obj kvs => !kvs.isEmpty

/-- Truthiness of a loader result: a missing file loads to Python None,
which is falsy. -/
def truthyOpt : Option Json → Bool
  | none => false
  | some v => v.truthy

/-- Name of the Python type of a value, as produced by type(v).__name__. -/
def pyTypeName : Json → String
  | .null => "NoneType"
  | .bool _ => "bool"
  | .num _ => "int"
  | .str _ => "str"
  | .arr _ => "list"
  | .obj _ => "dict"

/-- Exceptions the checker can raise while running its rules. -/
inductive PyErr where
  | keyError (key : String)
  | typeError (msg : String)
  | attributeError (msg : String)
deriving DecidableEq, Repr

/-- Lookup of a key in the key-value list of a JSON object, first match. -/
def jlookup (kvs : List (String × Json)) (k : String) : Option Json :=
  match kvs with
  | [] => none
  | (k2, v) :: rest => if k2 = k then some v else jlookup rest k

/-- Python d.get(k, dflt): AttributeError when the receiver is not a dict. -/
def pyGetD (d : Json) (k : String) (dflt : Json) : Except PyErr Json :=
  match d with
  | .obj kvs => .ok ((jlookup kvs k).getD dflt)
  | _ => .error (.attributeError "get")

/-- Python d.get(k) with the default None left distinguishable: returns none
for a missing key.  AttributeError when the receiver is not a dict. -/
def pyGetOpt (d : Json) (k : String) : Except PyErr (Option Json) :=
  match d with
  | .obj kvs => .ok (jlookup kvs k)
  | _ => .error (.attributeError "get")

/-- Python d[k] with a string key: KeyError when a dict lacks the key,
TypeError when the receiver is a list, a string or a scalar. -/
def pySubscript (d : Json) (k : String) : Except PyErr Json :=
  match d with
  | .obj kvs =>
    match jlookup kvs k with
    | some v => .ok v
    | none => .error (.keyError k)
  | _ => .error (.typeError "subscript")

/-- Containment of a list of characters inside another, at any position. -/
def charsHaveInfix (needle : List Char) : List Char → Bool
  | [] => needle.isEmpty
  | c :: rest => needle.isPrefixOf (c :: rest) || charsHaveInfix needle rest

/-- Python membership test k in d for a string k: key lookup for dicts,
element equality for lists, substring test for strings, TypeError
otherwise. -/
def pyContains (container : Json) (k : String) : Except PyErr Bool :=
  match container with
  | .obj kvs => .ok (kvs.any fun kv => kv.1 = k)
  | .arr xs => .ok (xs.contains (Json.str k))
  | .str s => .ok (charsHaveInfix k.data s.data)
  | _ => .error (.typeError "argument is not iterable")

/-- Python iteration over a value: a list yields its elements, a dict its
keys, a string its characters; scalars raise TypeError. -/
def pyIter : Json → Except PyErr (List Json)
  | .arr xs => .ok xs
  | .obj kvs => .ok (kvs.map fun kv => Json.str kv.1)
  | .str s => .ok (s.data.map fun c => Json.str (String.mk [c]))
  | _ => .error (.typeError "not iterable")

/-- Hashability of a value, as required for set members and dict keys:
lists and dicts are unhashable. -/
def pyHashable : Json → Bool
  | .arr _ => false
  | .obj _ => false
  | _ => true

/-- Equality test between a Python string and an arbitrary value: true
exactly when the value is the same string. -/
def pyEqStr (v : Json) (s : String) : Bool :=
  match v with
  | .str t => t = s
  | _ => false

/-- Decimal digit test, the class d of the two regexes. -/
def isDigitChar (c : Char) : Bool := '0' ≤ c && c ≤ '9'

/-- Whitespace class of the changelog regex, restricted to the ASCII
whitespace characters; the claims never involve non-ASCII whitespace. -/
def isPySpace (c : Char) : Bool :=
  c = ' ' || c = '\t' || c = '\n' || c = '\r' ||
  c = Char.ofNat 11 || c = Char.ofNat 12

/-- Matcher for one semver group, the alternation of a lone zero with a
nonzero digit followed by further digits.  Greedy matching is exact here:
every context following a group in the pattern starts with a character that
is not a digit, so the backtracking engine and the greedy scan agree. -/
def semverGroup : List Char → Option (List Char)
  | [] => none
  | c :: rest =>
    if c = '0' then some rest
    else if '1' ≤ c && c ≤ '9' then some (rest.dropWhile isDigitChar)
    else none

/-- End anchor of a Python pattern compiled without MULTILINE: it accepts
when the unconsumed suffix is empty or is a single final newline. -/
def pyEndAnchor (l : List Char) : Bool :=
  l = [] || l = ['\n']

/-- Consumption of one expected literal character. -/
def expectChar (c : Char) : List Char → Option (List Char)
  | [] => none
  | x :: rest => if x = c then some rest else none

/-- Matching of SEMVER_RE against a string, as performed by
SEMVER_RE.match(v): three dot-separated groups followed by the end
anchor. -/
def SEMVER_RE_match (s : String) : Bool :=
  match semverGroup s.data with
  | none => false
  | some r1 =>
    match expectChar '.' r1 with
    | none => false
    | some r2 =>
      match semverGroup r2 with
      | none => false
      | some r3 =>
        match expectChar '.' r3 with
        | none => false
        | some r4 =>
          match semverGroup r4 with
          | none => false
          | some r5 => pyEndAnchor r5

/-- Run of one or more digits: the d+ piece of the changelog regex, greedy,
which is exact because every following context starts with a non-digit. -/
def takeDigits1 (l : List Char) : Option (List Char × List Char) :=
  let ds := l.takeWhile isDigitChar
  if ds.isEmpty then none else some (ds, l.dropWhile isDigitChar)

/-- Attempt of CHANGELOG_VERSION_RE at one position: two hash marks,
optional whitespace, an opening bracket, three dot-separated digit runs and
a closing bracket; on success the captured group is returned.  Greedy
scanning of the whitespace run and of the digit runs is exact because each
is followed by a character outside its class. -/
def changelogMatchAt (l : List Char) : Option String :=
  match expectChar '#' l with
  | none => none
  | some r0 =>
    match expectChar '#' r0 with
    | none => none
    | some rest =>
      match expectChar '[' (rest.dropWhile isPySpace) with
      | none => none
      | some r2 =>
        match takeDigits1 r2 with
        | none => none
        | some (d1, r3) =>
          match expectChar '.' r3 with
          | none => none
          | some r4 =>
            match takeDigits1 r4 with
            | none => none
            | some (d2, r5) =>
              match expectChar '.' r5 with
              | none => none
              | some r6 =>
                match takeDigits1 r6 with
                | none => none
                | some (d3, r7) =>
                  match expectChar ']' r7 with
                  | none => none
                  | some _ => some (String.mk (d1 ++ '.' :: d2 ++ '.' :: d3))

/-- Search of CHANGELOG_VERSION_RE over a text, leftmost match first, as
performed by CHANGELOG_VERSION_RE.search. -/
def changelogSearch : List Char → Option String
  | [] => none
  | c :: rest =>
    match changelogMatchAt (c :: rest) with
    | some v => some v
    | none => changelogSearch rest

/-- Extraction of the most recent changelog version from the optional file
content, the model of get_changelog_version: a missing file or a text with
no matching heading yields none. -/
def get_changelog_version (content : Option String) : Option String :=
  match content with
  | none => none
  | some s => changelogSearch s.data

/-- Hexadecimal digit character for repr escapes. -/
def hexDigitChar (n : Nat) : Char :=
  if n < 10 then Char.ofNat ('0'.toNat + n) else Char.ofNat ('a'.toNat + n - 10)

/-- Escape of one character inside a Python string repr with quote q. -/
def pyReprChar (q : Char) (c : Char) : String :=
  if c = '\\' then "\\\\"
  else if c = q then "\\" ++ String.mk [q]
  else if c = '\n' then "\\n"
  else if c = '\r' then "\\r"
  else if c = '\t' then "\\t"
  else if c.toNat < 32 || c.toNat = 127 then
    "\\x" ++ String.mk [hexDigitChar (c.toNat / 16), hexDigitChar (c.toNat % 16)]
  else String.mk [c]

/-- Python repr of a string, as interpolated by an f-string conversion !r:
single quotes unless the text holds a single quote and no double quote,
with standard escapes.  Printable non-ASCII characters are kept as
themselves, a harmless simplification for the ASCII paths the checker
handles. -/
def pyReprStr (s : String) : String :=
  let sq : Char := Char.ofNat 39
  let q : Char := if s.data.contains sq && !s.data.contains '"' then '"' else sq
  String.mk [q] ++ String.join (s.data.map (pyReprChar q)) ++ String.mk [q]

/-- Absoluteness of a POSIX path, the model of Path(p).is_absolute(). -/
def isAbsolutePath (p : String) : Bool :=
  match p.data with
  | '/' :: _ => true
  | _ => false

/-- Joining of a unit directory with a declared path, the model of the
pathlib slash operator: an absolute right operand replaces the left one. -/
def joinPath (dir p : String) : String :=
  if isAbsolutePath p then p else dir ++ "/" ++ p

/-- Conversion of a declared component entry to a path operand: the pathlib
slash operator accepts strings and raises TypeError on anything else. -/
def pyAsPathStr : Json → Except PyErr String
  | .str s => .ok s
  | _ => .error (.typeError "unsupported path operand")

/-- Uniform finding record produced by every rule: severity, subject plugin,
message, ordered evidence pairs.  The plugin field carries the Json value
the rule passed, which is the directory name string for per-unit rules and
the listing name value for global rules. -/
structure Finding where
  severity : String
  plugin : Json
  message : String
  sources : List (String × Json)
deriving DecidableEq, Repr

/-- Filesystem oracle for one unit directory, covering exactly the queries
the component check performs on joined paths. -/
structure UnitFS where
  pathExists : String → Bool
  isDir : String → Bool
  resolvePath : String → String

/-- Loaded per-unit data: the directory name, the parsed canonical manifest
plugin.json if the file exists, the parsed component declaration
marketplace.json if it exists, the changelog text if it exists, and the
filesystem oracle. -/
structure PluginUnit where
  dirName : String
  plugin_json : Option Json
  marketplace_json : Option Json
  changelog : Option String
  fs : UnitFS

/-- Sequencing of a finding-producing step over a list, propagating the
first raised exception, the shape of every append loop in the script. -/
def collectM {α : Type} (f : α → Except PyErr (List Finding)) : List α → Except PyErr (List Finding)
  | [] => .ok []
  | x :: xs =>
    match f x with
    | .error e => .error e
    | .ok l =>
      match collectM f xs with
      | .error e => .error e
      | .ok r => .ok (l ++ r)

/-- Required manifest fields checked by the schema rule, in source order. -/
def requiredFields : List String :=
  ["name", "version", "description", "author", "license"]

/-- Component categories, in the order of the two declaration loops. -/
def componentTypes : List String := ["skills", "commands", "agents", "hooks"]

/-- Category and directory pairs of the undeclared-component loop, in its
distinct source order. -/
def undeclaredPairs : List (String × String) :=
  [("hooks", "hooks"), ("skills", "skills"), ("commands", "commands"), ("agents", "agents")]

/-- Finding for a required manifest field that is absent or null. -/
def missingFieldFinding (name field : String) : Finding :=
  ⟨"HIGH", .str name, "plugin.json missing required field: " ++ field, []⟩

/-- Finding for a manifest version value that is not a string. -/
def versionTypeFinding (name : String) (v : Json) : Finding :=
  ⟨"HIGH", .str name, "plugin.json version is not a string: " ++ pyTypeName v, []⟩

/-- Finding for a manifest version string that fails the semver pattern. -/
def badSemverFinding (name v : String) : Finding :=
  ⟨"HIGH", .str name, "plugin.json version is not valid semver: " ++ v, []⟩

/-- Finding for a manifest name that differs from the directory name. -/
def nameMismatchFinding (name pjName : String) : Finding :=
  ⟨"HIGH", .str name, "plugin.json name doesn't match directory name",
    [("plugin.json", .str pjName), ("directory", .str name)]⟩

/-- Finding for a unit with neither manifest file. -/
def noManifestFinding (name : String) : Finding :=
  ⟨"MEDIUM", .str name, "No plugin.json or marketplace.json found", []⟩

/-- Model of check_plugin_json_schema: validation of the canonical manifest
for required fields, version typing, semver shape and name coherence. -/
def check_plugin_json_schema (u : PluginUnit) : Except PyErr (List Finding) :=
  let name := u.dirName
  match u.plugin_json with
  | none =>
    match u.marketplace_json with
    | some _ => .ok []
    | none => .ok [noManifestFinding name]
  | some pj =>
    match collectM (fun field =>
        match pyContains pj field with
        | .error e => .error e
        | .ok present =>
          if !present then .ok [missingFieldFinding name field]
          else
            match pySubscript pj field with
            | .error e => .error e
            | .ok v => if v = Json.null then .ok [missingFieldFinding name field] else .ok [])
        requiredFields with
    | .error e => .error e
    | .ok reqFindings =>
      match pyGetD pj "version" Json.null with
      | .error e => .error e
      | .ok version =>
        let verFindings : List Finding :=
          match version with
          | .str s => if SEMVER_RE_match s then [] else [badSemverFinding name s]
          | .null => []
          | v => [versionTypeFinding name v]
        match pyGetD pj "name" Json.null with
        | .error e => .error e
        | .ok pjName =>
          let nameFindings : List Finding :=
            match pjName with
            | .str s => if s ≠ name then [nameMismatchFinding name s] else []
            | _ => []
          .ok (reqFindings ++ verFindings ++ nameFindings)

/-- Finding for a declared component path that does not exist on disk. -/
def missingPathFinding (name ct p : String) : Finding :=
  ⟨"HIGH", .str name,
    "marketplace.json declares " ++ ct ++ ": " ++ pyReprStr p ++ " but path does not exist", []⟩

/-- Finding for a declared component path that is absolute. -/
def absolutePathFinding (name ct p : String) : Finding :=
  ⟨"HIGH", .str name, "marketplace.json " ++ ct ++ " has absolute path: " ++ pyReprStr p, []⟩

/-- Finding for a conventional component directory that exists on disk but
is not declared. -/
def undeclaredDirFinding (name dirN ct : String) : Finding :=
  ⟨"MEDIUM", .str name,
    dirN ++ "/ directory exists but not declared in marketplace.json " ++ ct, []⟩

/-- Short-circuit search for a declared path whose canonical resolution
equals that of the conventional directory, the model of the any() call. -/
def anyResolves (fs : UnitFS) (dir dirPath : String) : List Json → Except PyErr Bool
  | [] => .ok false
  | pv :: rest =>
    match pyAsPathStr pv with
    | .error e => .error e
    | .ok p =>
      if fs.resolvePath (joinPath dir p) = fs.resolvePath dirPath then .ok true
      else anyResolves fs dir dirPath rest

/-- Model of check_marketplace_components: per entry of the plugins array,
existence of every declared path, absoluteness of every declared path, and
presence of a declaration covering each conventional directory that exists
on disk. -/
def check_marketplace_components (u : PluginUnit) : Except PyErr (List Finding) :=
  let name := u.dirName
  match u.marketplace_json with
  | none => .ok []
  | some mkt =>
    match pyGetD mkt "plugins" (Json.arr []) with
    | .error e => .error e
    | .ok pluginsVal =>
      match pyIter pluginsVal with
      | .error e => .error e
      | .ok entries =>
        collectM (fun e =>
          match collectM (fun ct =>
              match pyGetD e ct (Json.arr []) with
              | .error er => .error er
              | .ok dv =>
                match pyIter dv with
                | .error er => .error er
                | .ok ds =>
                  collectM (fun pv =>
                    match pyAsPathStr pv with
                    | .error er => .error er
                    | .ok p =>
                      if u.fs.pathExists (joinPath name p) then .ok []
                      else .ok [missingPathFinding name ct p]) ds) componentTypes with
          | .error er => .error er
          | .ok existFindings =>
            match collectM (fun ct =>
                match pyGetD e ct (Json.arr []) with
                | .error er => .error er
                | .ok dv =>
                  match pyIter dv with
                  | .error er => .error er
                  | .ok ds =>
                    collectM (fun pv =>
                      match pyAsPathStr pv with
                      | .error er => .error er
                      | .ok p =>
                        if isAbsolutePath p then .ok [absolutePathFinding name ct p]
                        else .ok []) ds) componentTypes with
            | .error er => .error er
            | .ok absFindings =>
              match collectM (fun (pair : String × String) =>
                  let ct := pair.1
                  let dirN := pair.2
                  let dirPath := joinPath name dirN
                  if u.fs.pathExists dirPath && u.fs.isDir dirPath then
                    match pyGetD e ct (Json.arr []) with
                    | .error er => .error er
                    | .ok dv =>
                      match pyIter dv with
                      | .error er => .error er
                      | .ok ds =>
                        match anyResolves u.fs name dirPath ds with
                        | .error er => .error er
                        | .ok m =>
                          if m then .ok [] else .ok [undeclaredDirFinding name dirN ct]
                  else .ok []) undeclaredPairs with
              | .error er => .error er
              | .ok undeclFindings => .ok (existFindings ++ absFindings ++ undeclFindings))
          entries

/-- Finding for a canonical version that disagrees with the changelog. -/
def changelogMismatchFinding (name canonical changelogV : String) : Finding :=
  ⟨"HIGH", .str name, "Version mismatch: plugin.json vs CHANGELOG.md",
    [("plugin.json", .str canonical), ("CHANGELOG.md", .str changelogV)]⟩

/-- Finding for a canonical version that disagrees with the site metadata
index, the only CRITICAL finding of the program. -/
def siteMismatchFinding (name canonical : String) (siteV : Json) : Finding :=
  ⟨"CRITICAL", .str name, "Version mismatch: plugin.json vs skill7.dev plugin-meta.json",
    [("plugin.json", .str canonical), ("plugin-meta.json", siteV)]⟩

/-- Model of check_version_consistency: cross-check of the canonical version
against the changelog extraction and the site metadata index.  The siteMeta
argument is the loaded index; line 220 of the source reloads the same file
when the cache is None, which yields the same loaded value.  The local
sources dict the source builds up is dead code (each finding is created
with its own literal dict) and is not modelled. -/
def check_version_consistency (u : PluginUnit) (siteMeta : Option Json) :
    Except PyErr (List Finding) :=
  let name := u.dirName
  match u.plugin_json with
  | none => .ok []
  | some pj =>
    match pyGetD pj "version" Json.null with
    | .error e => .error e
    | .ok cv =>
      match cv with
      | .str v =>
        if v = "" then .ok []
        else
          let clFindings : List Finding :=
            match get_changelog_version u.changelog with
            | some w => if w ≠ "" && w ≠ v then [changelogMismatchFinding name v w] else []
            | none => []
          match siteMeta with
          | none => .ok (clFindings ++ [])
          | some sm =>
            if sm.truthy then
              match pyGetD sm "plugins" (Json.obj []) with
              | .error e => .error e
              | .ok plugins =>
                match pyGetOpt plugins name with
                | .error e => .error e
                | .ok pm =>
                  match pm with
                  | some pmv =>
                    if pmv.truthy then
                      match pyGetD pmv "version" (Json.str "") with
                      | .error e => .error e
                      | .ok sv =>
                        if sv.truthy && !pyEqStr sv v then
                          .ok (clFindings ++ [siteMismatchFinding name v sv])
                        else .ok (clFindings ++ [])
                    else .ok (clFindings ++ [])
                  | none => .ok (clFindings ++ [])
            else .ok (clFindings ++ [])
      | _ => .ok []

/-- Ordered dict used for the name-to-description maps: insertion keeps the
first position of a key and overwrites its value, as a Python dict does.
Key equality is structural, which agrees with Python equality on every
hashable value the claims reach; the bool-versus-int identification of
Python equality is not exercised by any claim. -/
def dictInsert (m : List (Json × Json)) (k v : Json) : List (Json × Json) :=
  if m.any fun kv => kv.1 = k then
    m.map fun kv => if kv.1 = k then (kv.1, v) else kv
  else m ++ [(k, v)]

/-- Lookup in an ordered dict with Json keys. -/
def dictFind (m : List (Json × Json)) (k : Json) : Option Json :=
  match m with
  | [] => none
  | (k2, v) :: rest => if k2 = k then some v else dictFind rest k

/-- Construction of a name-to-description map from listing entries: each
subscript can raise KeyError, the description subscript being evaluated
first as the right-hand side of the assignment, and an unhashable name
raises TypeError. -/
def buildDescMap (acc : List (Json × Json)) : List Json → Except PyErr (List (Json × Json))
  | [] => .ok acc
  | p :: rest =>
    match pySubscript p "description" with
    | .error e => .error e
    | .ok d =>
      match pySubscript p "name" with
      | .error e => .error e
      | .ok n =>
        if pyHashable n then buildDescMap (dictInsert acc n d) rest
        else .error (.typeError "unhashable type")

/-- Truncation of a description for evidence, the slice to 80 characters
followed by an ellipsis: only strings survive the concatenation. -/
def pyTruncate80 : Json → Except PyErr String
  | .str s => .ok (String.mk (s.data.take 80) ++ "...")
  | _ => .error (.typeError "slice or concatenation")

/-- Finding for a description that differs between the two listings. -/
def descMismatchFinding (name : Json) (siteT empT : String) : Finding :=
  ⟨"MEDIUM", name,
    "Description mismatch: skill7.dev marketplace.json vs emporium marketplace.json",
    [("site", .str siteT), ("emporium", .str empT)]⟩

/-- Model of check_description_consistency: when both listings load truthy,
names present in both maps with differing descriptions yield a MEDIUM
finding with truncated evidence.  The inequality between stored description
values is structural, which matches Python inequality on all values the
claims reach. -/
def check_description_consistency (siteMkt empMkt : Option Json) :
    Except PyErr (List Finding) :=
  if !truthyOpt siteMkt || !truthyOpt empMkt then .ok []
  else
    let sm := (siteMkt.getD Json.null)
    let em := (empMkt.getD Json.null)
    match pyGetD sm "plugins" (Json.arr []) with
    | .error e => .error e
    | .ok sp =>
      match pyIter sp with
      | .error e => .error e
      | .ok siteEntries =>
        match buildDescMap [] siteEntries with
        | .error e => .error e
        | .ok siteDescs =>
          match pyGetD em "plugins" (Json.arr []) with
          | .error e => .error e
          | .ok ep =>
            match pyIter ep with
            | .error e => .error e
            | .ok empEntries =>
              match buildDescMap [] empEntries with
              | .error e => .error e
              | .ok empDescs =>
                collectM (fun kv =>
                  match dictFind empDescs kv.1 with
                  | some ev =>
                    if kv.2 ≠ ev then
                      match pyTruncate80 kv.2 with
                      | .error e => .error e
                      | .ok st =>
                        match pyTruncate80 ev with
                        | .error e => .error e
                        | .ok et => .ok [descMismatchFinding kv.1 st et]
                    else .ok []
                  | none => .ok []) siteDescs

/-- Construction of the set of names of a listing: each entry is
subscripted by name, an unhashable name raises TypeError, and duplicates
are dropped.  Python set iteration order is unspecified; the model keeps
insertion order, and every claim about the set rules is count-based and
order-insensitive. -/
def buildNameSet (acc : List Json) : List Json → Except PyErr (List Json)
  | [] => .ok acc
  | p :: rest =>
    match pySubscript p "name" with
    | .error e => .error e
    | .ok n =>
      if pyHashable n then
        buildNameSet (if acc.contains n then acc else acc ++ [n]) rest
      else .error (.typeError "unhashable type")

/-- Finding for a unit listed by the emporium but absent from the site. -/
def inEmporiumOnlyFinding (name : Json) : Finding :=
  ⟨"HIGH", name, "Plugin in emporium but missing from skill7.dev", []⟩

/-- Finding for a unit listed by the site but absent from the emporium. -/
def inSiteOnlyFinding (name : Json) : Finding :=
  ⟨"HIGH", name, "Plugin on skill7.dev but missing from emporium", []⟩

/-- Model of check_emporium_vs_site: when both listings load truthy, each
direction of the symmetric difference of the two name sets yields one HIGH
finding per name. -/
def check_emporium_vs_site (siteMkt empMkt : Option Json) : Except PyErr (List Finding) :=
  if !truthyOpt siteMkt || !truthyOpt empMkt then .ok []
  else
    let sm := (siteMkt.getD Json.null)
    let em := (empMkt.getD Json.null)
    match pyGetD sm "plugins" (Json.arr []) with
    | .error e => .error e
    | .ok sp =>
      match pyIter sp with
      | .error e => .error e
      | .ok siteEntries =>
        match buildNameSet [] siteEntries with
        | .error e => .error e
        | .ok siteNames =>
          match pyGetD em "plugins" (Json.arr []) with
          | .error e => .error e
          | .ok ep =>
            match pyIter ep with
            | .error e => .error e
            | .ok empEntries =>
              match buildNameSet [] empEntries with
              | .error e => .error e
              | .ok empNames =>
                .ok ((empNames.filter fun n => !siteNames.contains n).map inEmporiumOnlyFinding
                  ++ (siteNames.filter fun n => !empNames.contains n).map inSiteOnlyFinding)

/-- Finding for a marketplace unit with no site metadata entry. -/
def noMetaEntryFinding (name : Json) : Finding :=
  ⟨"HIGH", name, "Plugin in marketplace.json but missing from plugin-meta.json", []⟩

/-- Finding for a site metadata entry without a truthy version. -/
def noMetaVersionFinding (name : Json) : Finding :=
  ⟨"MEDIUM", name, "No version in plugin-meta.json", []⟩

/-- Finding for a site metadata entry without truthy tags. -/
def noMetaTagsFinding (name : Json) : Finding :=
  ⟨"LOW", name, "No tags in plugin-meta.json", []⟩

/-- Python membership of a name value in the plugins index: key lookup for a
dict receiver with a hashability check on the name, element equality for a
list receiver, TypeError otherwise. -/
def pyMemberOf (n : Json) (container : Json) : Except PyErr Bool :=
  match container with
  | .obj kvs =>
    if pyHashable n then
      .ok (match n with
        | .str s => kvs.any fun kv => kv.1 = s
        | _ => false)
    else .error (.typeError "unhashable type")
  | .arr xs => .ok (xs.contains n)
  | _ => .error (.typeError "argument is not iterable")

/-- Subscript of the plugins index by a name value; the call sites only
reach it after a successful membership test, so the dict branch always
finds its key there. -/
def pyIndexSubscript (container : Json) (n : Json) : Except PyErr Json :=
  match container with
  | .obj kvs =>
    match n with
    | .str s =>
      match jlookup kvs s with
      | some v => .ok v
      | none => .error (.keyError s)
    | _ => .error (.keyError "non-string key")
  | _ => .error (.typeError "subscript")

/-- Model of check_site_meta_completeness: when both sources load truthy,
each marketplace name must have an index entry, and an entry found must
carry a truthy version and truthy tags. -/
def check_site_meta_completeness (siteMkt siteMeta : Option Json) :
    Except PyErr (List Finding) :=
  if !truthyOpt siteMkt || !truthyOpt siteMeta then .ok []
  else
    let sm := (siteMkt.getD Json.null)
    let meta := (siteMeta.getD Json.null)
    match pyGetD meta "plugins" (Json.obj []) with
    | .error e => .error e
    | .ok metaPlugins =>
      match pyGetD sm "plugins" (Json.arr []) with
      | .error e => .error e
      | .ok sp =>
        match pyIter sp with
        | .error e => .error e
        | .ok entries =>
          collectM (fun p =>
            match pySubscript p "name" with
            | .error e => .error e
            | .ok n =>
              match pyMemberOf n metaPlugins with
              | .error e => .error e
              | .ok mem =>
                if !mem then .ok [noMetaEntryFinding n]
                else
                  match pyIndexSubscript metaPlugins n with
                  | .error e => .error e
                  | .ok entry =>
                    match pyGetD entry "version" Json.null with
                    | .error e => .error e
                    | .ok ver =>
                      match pyGetD entry "tags" Json.null with
                      | .error e => .error e
                      | .ok tags =>
                        .ok ((if !ver.truthy then [noMetaVersionFinding n] else [])
                          ++ (if !tags.truthy then [noMetaTagsFinding n] else []))) entries

/-- Loaded data of one run: the discovered unit directories with their
per-unit files, and the three shared sources resolved from the root. -/
structure RunData where
  plugin_dirs : List PluginUnit
  site_meta : Option Json
  site_marketplace : Option Json
  emporium_marketplace : Option Json

/-- Stable insertion of a unit into a name-sorted list. -/
def insertUnit (u : PluginUnit) : List PluginUnit → List PluginUnit
  | [] => [u]
  | v :: rest =>
    if u.dirName ≤ v.dirName then u :: v :: rest else v :: insertUnit u rest

/-- Ordering used by sorted(PLUGIN_DIRS): path order, which on sibling
directories is the lexicographic order of their names, modelled by a stable
insertion sort. -/
def sortUnits (us : List PluginUnit) : List PluginUnit :=
  us.foldr insertUnit []

/-- Accumulation of every finding of a run, per-unit rules in name-sorted
order followed by the three global rules, with the site metadata index
preloaded once and passed to the version rule. -/
def runChecks (d : RunData) : Except PyErr (List Finding) :=
  match collectM (fun u =>
      match check_plugin_json_schema u with
      | .error e => .error e
      | .ok a =>
        match check_marketplace_components u with
        | .error e => .error e
        | .ok b =>
          match check_version_consistency u d.site_meta with
          | .error e => .error e
          | .ok c => .ok (a ++ b ++ c)) (sortUnits d.plugin_dirs) with
  | .error e => .error e
  | .ok perUnit =>
    match check_description_consistency d.site_marketplace d.emporium_marketplace with
    | .error e => .error e
    | .ok g1 =>
      match check_emporium_vs_site d.site_marketplace d.emporium_marketplace with
      | .error e => .error e
      | .ok g2 =>
        match check_site_meta_completeness d.site_marketplace d.site_meta with
        | .error e => .error e
        | .ok g3 => .ok (perUnit ++ g1 ++ g2 ++ g3)

/-- Severity keys of the grouping dict in main, in its fixed order. -/
def SEVERITIES : List String := ["CRITICAL", "HIGH", "MEDIUM", "LOW"]

/-- Blocking test of main: some finding is CRITICAL or HIGH. -/
def has_blocking (fs : List Finding) : Bool :=
  fs.any fun f => f.severity = "CRITICAL" || f.severity = "HIGH"

/-- Appending of one finding to the by_severity dict of main: a severity
outside the four fixed keys raises KeyError. -/
def bucketAppend (acc : List (String × List Finding)) (f : Finding) :
    Except PyErr (List (String × List Finding)) :=
  if acc.any fun kv => kv.1 = f.severity then
    .ok (acc.map fun kv => if kv.1 = f.severity then (kv.1, kv.2 ++ [f]) else kv)
  else .error (.keyError f.severity)

/-- Grouping of the findings by severity, the by_severity dict of main. -/
def groupBySeverity (fs : List Finding) : Except PyErr (List (String × List Finding)) :=
  fs.foldlM bucketAppend
    [("CRITICAL", []), ("HIGH", []), ("MEDIUM", []), ("LOW", [])]

/-- Model of main from the collection of findings to the returned exit
status.  Printing is not modelled; in the human-readable branch the
grouping is still performed since its KeyError would abort the run, and an
empty finding list returns 0 before grouping.  The name main is reserved by
Lean for executables, hence the suffix. -/
def main_model (d : RunData) (json_mode : Bool) : Except PyErr Nat :=
  match runChecks d with
  | .error e => .error e
  | .ok findings =>
    if json_mode then .ok (if has_blocking findings then 1 else 0)
    else if findings.isEmpty then .ok 0
    else
      match groupBySeverity findings with
      | .error e => .error e
      | .ok _ => .ok (if has_blocking findings then 1 else 0)

/-! ## General lemmas about the combinators of the embedding -/

theorem collectM_congr_ok {α : Type} (f : α → Except PyErr (List Finding))
    (g : α → List Finding) :
    ∀ xs : List α, (∀ x ∈ xs, f x = .ok (g x)) →
      collectM f xs = .ok (xs.flatMap g)
  | [], _ => rfl
  | x :: xs, h => by
      simp only [collectM, h x (List.mem_cons_self x xs),
        collectM_congr_ok f g xs (fun y hy => h y (List.mem_cons_of_mem x hy)),
        List.flatMap_cons]

theorem collectM_all {α : Type} (f : α → Except PyErr (List Finding))
    (P : Finding → Prop)
    (hstep : ∀ x l, f x = .ok l → ∀ fd ∈ l, P fd) :
    ∀ xs l, collectM f xs = .ok l → ∀ fd ∈ l, P fd
  | [], l, h => by
      cases h; intro fd hfd; cases hfd
  | x :: xs, l, h => by
      simp only [collectM] at h
      cases hfx : f x with
      | error e => rw [hfx] at h; cases h
      | ok l1 =>
        rw [hfx] at h
        cases hrest : collectM f xs with
        | error e => rw [hrest] at h; cases h
        | ok l2 =>
          rw [hrest] at h
          cases h
          intro fd hfd
          rcases List.mem_append.mp hfd with hm | hm
          · exact hstep x l1 hfx fd hm
          · exact collectM_all f P hstep xs l2 hrest fd hm

theorem flatMap_ite_singleton {α : Type} (p : α → Bool) (g : α → Finding) (xs : List α) :
    (xs.flatMap fun x => if p x then [g x] else []) = (xs.filter p).map g := by
  induction xs with
  | nil => rfl
  | cons x xs ih =>
      by_cases hx : p x <;> simp [List.filter_cons, hx, ih]

theorem jlookup_eq_none_iff (kvs : List (String × Json)) (k : String) :
    jlookup kvs k = none ↔ (kvs.any fun kv => kv.1 = k) = false := by
  induction kvs with
  | nil => simp [jlookup]
  | cons kv rest ih =>
      obtain ⟨k2, v⟩ := kv
      by_cases hk : k2 = k <;> simp [jlookup, hk, ih]

/-! ## Claim C3: the semver pattern -/

/-- Group shape named by the claim: a non-negative decimal group with no
leading zero. -/
def goodGroup (g : List Char) : Bool :=
  match g with
  | [] => false
  | c :: rest =>
    if c = '0' then rest.isEmpty
    else ('1' ≤ c && c ≤ '9') && rest.all isDigitChar

/-- Shape demanded by claim C3 as frozen: exactly three dot-separated
groups with no characters before or after, no suffix at all. -/
def claimSemverShape (s : String) : Prop :=
  ∃ g1 g2 g3 : List Char, goodGroup g1 = true ∧ goodGroup g2 = true ∧
    goodGroup g3 = true ∧ s.data = g1 ++ ('.' :: (g2 ++ ('.' :: g3)))

/-- Shape of the amended claim: the same three groups, with an optional
single trailing newline tolerated by the end anchor of the pattern. -/
def claimSemverShapeLax (s : String) : Prop :=
  ∃ g1 g2 g3 t, goodGroup g1 = true ∧ goodGroup g2 = true ∧
    goodGroup g3 = true ∧ (t = [] ∨ t = ['\n']) ∧
    s.data = g1 ++ ('.' :: (g2 ++ ('.' :: (g3 ++ t))))

theorem goodGroup_mem_digit {g : List Char} (hg : goodGroup g = true) {c : Char}
    (hc : c ∈ g) : isDigitChar c = true := by
  match g with
  | [] => cases hc
  | d :: rest =>
    simp only [goodGroup] at hg
    split at hg
    · rename_i hd
      subst hd
      rw [List.isEmpty_iff] at hg
      subst hg
      rcases List.mem_singleton.mp hc with rfl
      decide
    · simp only [Bool.and_eq_true, decide_eq_true_eq] at hg
      obtain ⟨⟨h1, h2⟩, hall⟩ := hg
      rcases List.mem_cons.mp hc with rfl | hmem
      · simp only [isDigitChar, Bool.and_eq_true, decide_eq_true_eq]
        exact ⟨le_trans (by decide) h1, h2⟩
      · exact List.all_eq_true.mp hall c hmem

theorem semverGroup_sound {l r : List Char} (h : semverGroup l = some r) :
    ∃ g, goodGroup g = true ∧ l = g ++ r := by
  match l with
  | [] => simp [semverGroup] at h
  | c :: rest =>
    simp only [semverGroup] at h
    split at h
    · rename_i hc
      subst hc
      cases h
      exact ⟨['0'], by decide, rfl⟩
    · split at h
      · rename_i hc hd
        cases h
        refine ⟨c :: rest.takeWhile isDigitChar, ?_, ?_⟩
        · rw [Bool.and_eq_true] at hd
          simp only [goodGroup, if_neg hc, Bool.and_eq_true]
          refine ⟨hd, List.all_eq_true.mpr ?_⟩
          intro x hx
          exact List.mem_takeWhile_imp hx
        · simp [List.takeWhile_append_dropWhile]
      · cases h

theorem dropWhile_eq_nil_of_all {p : Char → Bool} {l : List Char}
    (h : l.all p = true) : l.dropWhile p = [] := by
  induction l with
  | nil => rfl
  | cons x xs ih =>
      rw [List.all_cons, Bool.and_eq_true] at h
      simp [List.dropWhile_cons, h.1, ih h.2]

theorem semverGroup_complete {g r : List Char} (hg : goodGroup g = true)
    (hr : r.dropWhile isDigitChar = r) :
    semverGroup (g ++ r) = some r := by
  match g with
  | [] => simp [goodGroup] at hg
  | c :: rest =>
    simp only [goodGroup] at hg
    split at hg
    · rename_i hc
      subst hc
      rw [List.isEmpty_iff] at hg
      subst hg
      simp [semverGroup]
    · rename_i hc
      rw [Bool.and_eq_true] at hg
      obtain ⟨hrange, hall⟩ := hg
      simp only [List.cons_append, semverGroup, if_neg hc, hrange, if_true]
      rw [List.dropWhile_append, dropWhile_eq_nil_of_all hall]
      simp [hr]

theorem expectChar_sound {c : Char} {l r : List Char} (h : expectChar c l = some r) :
    l = c :: r := by
  match l with
  | [] => simp [expectChar] at h
  | x :: rest =>
    simp only [expectChar] at h
    split at h
    · rename_i hx
      cases h
      rw [hx]
    · cases h

theorem dropWhile_cons_of_neg {p : Char → Bool} {c : Char} {l : List Char}
    (h : p c = false) : (c :: l).dropWhile p = c :: l := by
  simp [List.dropWhile_cons, h]

theorem expectChar_cons (c : Char) (l : List Char) : expectChar c (c :: l) = some l := by
  simp [expectChar]

/-- Claim C3, counterexample: the text consisting of a valid semver
followed by a single newline matches SEMVER_RE, because the end anchor of a
Python pattern accepts a position just before a final newline, yet the
shape demanded by the claim excludes every suffix. -/
theorem claim3_counterexample :
    SEMVER_RE_match "1.0.0\n" = true ∧ ¬ claimSemverShape "1.0.0\n" := by
  refine ⟨by decide, ?_⟩
  rintro ⟨g1, g2, g3, h1, h2, h3, heq⟩
  have hn : '\n' ∈ "1.0.0\n".data := by decide
  rw [heq] at hn
  rcases List.mem_append.mp hn with hm | hm
  · have := goodGroup_mem_digit h1 hm
    simp [isDigitChar] at this
  · rcases List.mem_cons.mp hm with he | hm2
    · simp at he
    · rcases List.mem_append.mp hm2 with hm3 | hm4
      · have := goodGroup_mem_digit h2 hm3
        simp [isDigitChar] at this
      · rcases List.mem_cons.mp hm4 with he | hm5
        · simp at he
        · have := goodGroup_mem_digit h3 hm5
          simp [isDigitChar] at this

/-- Claim C3, amended: a text matches SEMVER_RE iff it consists of exactly
three dot-separated non-negative decimal groups with no leading zero in any
group and no further characters, except that one single trailing newline is
tolerated, since the end anchor of a Python pattern compiled without
MULTILINE also accepts the position just before a final newline.  The
listed examples are instances: the five positives and five negatives of the
claim keep their stated status, and the text of a match followed by one
newline also matches. -/
theorem claim3_semver_pattern (s : String) :
    SEMVER_RE_match s = true ↔ claimSemverShapeLax s := by
  constructor
  · intro h
    unfold SEMVER_RE_match at h
    split at h
    · cases h
    · rename_i r1 hg1
      split at h
      · cases h
      · rename_i r2 hd1
        split at h
        · cases h
        · rename_i r3 hg2
          split at h
          · cases h
          · rename_i r4 hd2
            split at h
            · cases h
            · rename_i r5 hg3
              obtain ⟨gg1, hgg1, he1⟩ := semverGroup_sound hg1
              obtain ⟨gg2, hgg2, he2⟩ := semverGroup_sound hg2
              obtain ⟨gg3, hgg3, he3⟩ := semverGroup_sound hg3
              have hr1 := expectChar_sound hd1
              have hr3 := expectChar_sound hd2
              have ht : r5 = [] ∨ r5 = ['\n'] := by
                simp only [pyEndAnchor, Bool.or_eq_true, decide_eq_true_eq] at h
                exact h
              refine ⟨gg1, gg2, gg3, r5, hgg1, hgg2, hgg3, ht, ?_⟩
              rw [he1, hr1, he2, hr3, he3]
  · rintro ⟨g1, g2, g3, t, h1, h2, h3, ht, heq⟩
    have hdrop1 : ('.' :: (g2 ++ ('.' :: (g3 ++ t)))).dropWhile isDigitChar =
        '.' :: (g2 ++ ('.' :: (g3 ++ t))) := dropWhile_cons_of_neg (by decide)
    have hdrop2 : ('.' :: (g3 ++ t)).dropWhile isDigitChar = '.' :: (g3 ++ t) :=
      dropWhile_cons_of_neg (by decide)
    have hdropt : t.dropWhile isDigitChar = t := by
      rcases ht with rfl | rfl <;> decide
    simp only [SEMVER_RE_match, heq, semverGroup_complete h1 hdrop1, expectChar_cons,
      semverGroup_complete h2 hdrop2, semverGroup_complete h3 hdropt]
    rcases ht with rfl | rfl <;> decide

/-! ## Claim C2: the version consistency rule -/

theorem changelogMatchAt_ne_empty {l : List Char} {w : String}
    (h : changelogMatchAt l = some w) : w ≠ "" := by
  unfold changelogMatchAt at h
  split at h
  · cases h
  · split at h
    · cases h
    · split at h
      · cases h
      · split at h
        · cases h
        · split at h
          · cases h
          · split at h
            · cases h
            · split at h
              · cases h
              · split at h
                · cases h
                · split at h
                  · cases h
                  · cases h
                    intro hw
                    have h2 := congrArg String.data hw
                    simp at h2

theorem changelogSearch_ne_empty : ∀ {l : List Char} {w : String},
    changelogSearch l = some w → w ≠ ""
  | [], w, h => by cases h
  | c :: rest, w, h => by
      simp only [changelogSearch] at h
      split at h
      · cases h
        rename_i hm
        exact changelogMatchAt_ne_empty hm
      · exact changelogSearch_ne_empty h

theorem get_changelog_version_ne_empty {c : Option String} {w : String}
    (h : get_changelog_version c = some w) : w ≠ "" := by
  match c with
  | none => cases h
  | some s => exact changelogSearch_ne_empty h

/-- Shape under which the manifest access of the version rule cannot raise:
the canonical manifest is absent or is an object. -/
def manifestShapeOk (u : PluginUnit) : Prop :=
  u.plugin_json = none ∨ ∃ kvs, u.plugin_json = some (.obj kvs)

/-- Canonical version of a unit in the sense of the claim: the version
field of the canonical manifest when that field holds a non-empty text
value. -/
def canonicalVersion (pj : Option Json) : Option String :=
  match pj with
  | some (.obj kvs) =>
    match (jlookup kvs "version").getD .null with
    | .str v => if v = "" then none else some v
    | _ => none
  | _ => none

/-- Shape of the site metadata index under which the version rule cannot
raise for a unit: the index is absent or falsy, or is an object whose
plugins field, defaulting to an empty object, is an object whose entry for
the unit, if present and truthy, is an object. -/
def siteIndexShapeOk (siteMeta : Option Json) (name : String) : Prop :=
  match siteMeta with
  | none => True
  | some sm =>
    sm.truthy = false ∨
    ∃ skvs, sm = .obj skvs ∧
      ∃ pkvs, (jlookup skvs "plugins").getD (.obj []) = .obj pkvs ∧
        (match jlookup pkvs name with
         | none => True
         | some e => e.truthy = false ∨ ∃ ekvs, e = .obj ekvs)

/-- Version value of the site metadata index entry of a unit: present when
the index loads truthy and holds a truthy object entry for the unit,
defaulting to the empty string when the entry lacks the field, exactly the
value the rule compares. -/
def siteEntryVersion (siteMeta : Option Json) (name : String) : Option Json :=
  match siteMeta with
  | some (.obj skvs) =>
    if (Json.obj skvs).truthy then
      match (jlookup skvs "plugins").getD (.obj []) with
      | .obj pkvs =>
        match jlookup pkvs name with
        | some (.obj ekvs) =>
          if (Json.obj ekvs).truthy then some ((jlookup ekvs "version").getD (.str ""))
          else none
        | _ => none
      | _ => none
    else none
  | _ => none

/-- Claim C2: the version consistency rule runs only when the canonical
manifest version is a non-empty text value (first conjunct: otherwise it
returns no finding); when it runs, it emits the HIGH changelog-mismatch
finding, with both values as evidence, exactly when a changelog version was
extracted and differs from the canonical version, and the CRITICAL
site-mismatch finding exactly when the site metadata index entry of the
unit carries a present, non-empty version differing from the canonical one;
the two comparisons are independent parts of the appended output. -/
theorem claim2_version_consistency :
    (∀ (u : PluginUnit) (siteMeta : Option Json),
      manifestShapeOk u → canonicalVersion u.plugin_json = none →
      check_version_consistency u siteMeta = .ok []) ∧
    (∀ (u : PluginUnit) (siteMeta : Option Json) (v : String),
      canonicalVersion u.plugin_json = some v →
      siteIndexShapeOk siteMeta u.dirName →
      check_version_consistency u siteMeta = .ok
        ((match get_changelog_version u.changelog with
          | some w => if w ≠ v then [changelogMismatchFinding u.dirName v w] else []
          | none => [])
         ++ (match siteEntryVersion siteMeta u.dirName with
             | some sv =>
               if sv.truthy && !pyEqStr sv v then [siteMismatchFinding u.dirName v sv]
               else []
             | none => []))) := by
  constructor
  · intro u siteMeta hshape hnone
    rcases hshape with hpj | ⟨kvs, hpj⟩
    · simp [check_version_consistency, hpj]
    · rw [hpj] at hnone
      simp only [canonicalVersion] at hnone
      simp only [check_version_consistency, hpj, pyGetD]
      split
      · rename_i v hlook
        rw [hlook] at hnone
        simp only at hnone
        split at hnone
        · rename_i hv0
          simp [hv0]
        · cases hnone
      · rfl
  · intro u siteMeta v hv hsite
    cases hpj : u.plugin_json with
    | none => rw [hpj] at hv; simp [canonicalVersion] at hv
    | some pj =>
      rw [hpj] at hv
      cases pj with
      | obj kvs =>
        simp only [canonicalVersion] at hv
        cases hlook : (jlookup kvs "version").getD .null with
        | str v2 =>
          rw [hlook] at hv
          simp only at hv
          split at hv
          · cases hv
          · rename_i hne2
            cases hv
            simp only [check_version_consistency, hpj, pyGetD, hlook, if_neg hne2]
            have hclf : (match get_changelog_version u.changelog with
                | some w =>
                  if w ≠ "" && w ≠ v then [changelogMismatchFinding u.dirName v w] else []
                | none => []) =
                (match get_changelog_version u.changelog with
                | some w => if w ≠ v then [changelogMismatchFinding u.dirName v w] else []
                | none => []) := by
              cases hcl : get_changelog_version u.changelog with
              | none => rfl
              | some w =>
                have hw := get_changelog_version_ne_empty hcl
                simp [hw]
            rw [hclf]
            generalize (match get_changelog_version u.changelog with
              | some w => if w ≠ v then [changelogMismatchFinding u.dirName v w] else []
              | none => []) = CL
            cases siteMeta with
            | none => simp [siteEntryVersion]
            | some sm =>
              simp only [siteIndexShapeOk] at hsite
              rcases hsite with hfalsy | ⟨skvs, rfl, pkvs, hpl, hent⟩
              · cases sm <;> simp_all [siteEntryVersion, Json.truthy]
              · by_cases htr : (Json.obj skvs).truthy
                · simp only [siteEntryVersion, htr, if_true, pyGetD, hpl, pyGetOpt]
                  cases hlk : jlookup pkvs u.dirName with
                  | none => simp
                  | some e =>
                    rw [hlk] at hent
                    rcases hent with hef | ⟨ekvs, rfl⟩
                    · cases e <;> simp_all [Json.truthy]
                    · by_cases het : (Json.obj ekvs).truthy
                      · simp only [het, if_true, pyGetD]
                        split <;> simp
                      · simp [het]
                · simp [siteEntryVersion, htr]
        | null => rw [hlook] at hv; cases hv
        | bool b => rw [hlook] at hv; cases hv
        | num n => rw [hlook] at hv; cases hv
        | arr xs => rw [hlook] at hv; cases hv
        | obj o => rw [hlook] at hv; cases hv
      | null => simp [canonicalVersion] at hv
      | bool b => simp [canonicalVersion] at hv
      | num n => simp [canonicalVersion] at hv
      | str s2 => simp [canonicalVersion] at hv
      | arr xs => simp [canonicalVersion] at hv

/-! ## Claim C4: the manifest schema rule -/

theorem string_append_right_cancel {p a b : String} (h : p ++ a = p ++ b) : a = b := by
  have hd := congrArg String.data h
  rw [String.data_append, String.data_append] at hd
  exact String.ext (List.append_cancel_left hd)

theorem append_ne_of_take_ne {p1 p2 : String} (a b : String) (k : Nat)
    (h1 : k ≤ p1.data.length) (h2 : k ≤ p2.data.length)
    (hne : p1.data.take k ≠ p2.data.take k) : p1 ++ a ≠ p2 ++ b := by
  intro h
  apply hne
  have hd := congrArg String.data h
  rw [String.data_append, String.data_append] at hd
  have h3 := congrArg (List.take k) hd
  rw [List.take_append_of_le_length h1, List.take_append_of_le_length h2] at h3
  exact h3

/-- Requirement of the claim on one manifest field: the field is absent or
holds null. -/
def absentOrNull (kvs : List (String × Json)) (field : String) : Bool :=
  match jlookup kvs field with
  | none => true
  | some .null => true
  | some _ => false

theorem jlookup_ne_none_of_any {kvs : List (String × Json)} {k : String}
    (h : (kvs.any fun kv => kv.1 = k) = true) : jlookup kvs k ≠ none := by
  intro hn
  rw [jlookup_eq_none_iff] at hn
  rw [hn] at h
  cases h

/-- Output of the manifest schema rule on an object manifest: one HIGH
finding per required field that is absent or null, in field order, then the
version typing and semver segment, then the name coherence segment. -/
theorem schema_obj_characterization (u : PluginUnit) (kvs : List (String × Json))
    (hpj : u.plugin_json = some (.obj kvs)) :
    check_plugin_json_schema u = .ok
      (((requiredFields.filter (absentOrNull kvs)).map (missingFieldFinding u.dirName))
       ++ (match (jlookup kvs "version").getD .null with
           | .str s => if SEMVER_RE_match s then [] else [badSemverFinding u.dirName s]
           | .null => []
           | v => [versionTypeFinding u.dirName v])
       ++ (match (jlookup kvs "name").getD .null with
           | .str s => if s ≠ u.dirName then [nameMismatchFinding u.dirName s] else []
           | _ => [])) := by
  have hstep : ∀ field ∈ requiredFields,
      (fun field =>
        match pyContains (Json.obj kvs) field with
        | .error e => .error e
        | .ok present =>
          if !present then .ok [missingFieldFinding u.dirName field]
          else
            match pySubscript (Json.obj kvs) field with
            | .error e => .error e
            | .ok v =>
              if v = Json.null then .ok [missingFieldFinding u.dirName field]
              else .ok []) field
      = Except.ok (if absentOrNull kvs field then [missingFieldFinding u.dirName field] else []) := by
    intro field _
    simp only [pyContains]
    cases hc : kvs.any fun kv => kv.1 = field with
    | false =>
      have hl : jlookup kvs field = none := (jlookup_eq_none_iff kvs field).mpr hc
      simp [absentOrNull, hl]
    | true =>
      cases hl : jlookup kvs field with
      | none => exact absurd hl (jlookup_ne_none_of_any hc)
      | some v =>
        by_cases hv : v = Json.null
        · subst hv
          simp [pySubscript, hl, absentOrNull]
        · simp [pySubscript, hl, absentOrNull, hv]
  simp only [check_plugin_json_schema, hpj]
  rw [collectM_congr_ok _ _ requiredFields hstep,
    flatMap_ite_singleton (absentOrNull kvs) (missingFieldFinding u.dirName) requiredFields]
  simp [pyGetD]

/-- Claim C4: the manifest schema rule emits one HIGH finding per required
field absent or null in the canonical manifest, a HIGH finding with both
values as evidence when the manifest name is a text value unequal to the
directory name, no finding for a listing-only unit, and a single MEDIUM
finding when neither manifest file exists. -/
theorem claim4_schema_rule :
    (∀ u : PluginUnit, u.plugin_json = none → u.marketplace_json ≠ none →
      check_plugin_json_schema u = .ok []) ∧
    (∀ u : PluginUnit, u.plugin_json = none → u.marketplace_json = none →
      check_plugin_json_schema u = .ok [noManifestFinding u.dirName]) ∧
    (∀ (u : PluginUnit) (kvs : List (String × Json)), u.plugin_json = some (.obj kvs) →
      ∃ l, check_plugin_json_schema u = .ok l ∧
        (∀ field ∈ requiredFields,
          l.count (missingFieldFinding u.dirName field) =
            if absentOrNull kvs field then 1 else 0) ∧
        (∀ s : String,
          l.count (nameMismatchFinding u.dirName s) =
            if (jlookup kvs "name").getD .null = .str s ∧ s ≠ u.dirName then 1 else 0)) := by
  refine ⟨?_, ?_, ?_⟩
  · intro u hpj hmkt
    cases hm : u.marketplace_json with
    | none => exact absurd hm hmkt
    | some m => simp [check_plugin_json_schema, hpj, hm]
  · intro u hpj hmkt
    simp [check_plugin_json_schema, hpj, hmkt]
  · intro u kvs hpj
    refine ⟨_, schema_obj_characterization u kvs hpj, ?_, ?_⟩
    · intro field hf
      rw [List.count_append, List.count_append]
      have hseg2 : (List.count (missingFieldFinding u.dirName field)
          (match (jlookup kvs "version").getD .null with
           | .str s => if SEMVER_RE_match s then [] else [badSemverFinding u.dirName s]
           | .null => []
           | v => [versionTypeFinding u.dirName v])) = 0 := by
        apply List.count_eq_zero_of_not_mem
        intro hmem
        split at hmem
        · split at hmem
          · cases hmem
          · rcases List.mem_singleton.mp hmem with heq
            have : "plugin.json missing required field: " ++ field =
                "plugin.json version is not valid semver: " ++ _ :=
              congrArg Finding.message heq
            exact append_ne_of_take_ne _ _ 13 (by decide) (by decide) (by decide) this
        · cases hmem
        · rcases List.mem_singleton.mp hmem with heq
          have : "plugin.json missing required field: " ++ field =
              "plugin.json version is not a string: " ++ _ :=
            congrArg Finding.message heq
          exact append_ne_of_take_ne _ _ 13 (by decide) (by decide) (by decide) this
      have hseg3 : (List.count (missingFieldFinding u.dirName field)
          (match (jlookup kvs "name").getD .null with
           | .str s => if s ≠ u.dirName then [nameMismatchFinding u.dirName s] else []
           | _ => [])) = 0 := by
        apply List.count_eq_zero_of_not_mem
        intro hmem
        split at hmem
        · split at hmem
          · rcases List.mem_singleton.mp hmem with heq
            have hsrc : ([] : List (String × Json)) = [("plugin.json", _), ("directory", _)] :=
              congrArg Finding.sources heq
            cases hsrc
          · cases hmem
        · cases hmem
      rw [hseg2, hseg3]
      have hinj : Function.Injective (missingFieldFinding u.dirName) := by
        intro a b hab
        have := congrArg Finding.message hab
        exact string_append_right_cancel this
      rw [List.count_map_of_injective _ _ hinj]
      by_cases hav : absentOrNull kvs field
      · rw [if_pos hav]
        have hmemf : field ∈ requiredFields.filter (absentOrNull kvs) :=
          List.mem_filter.mpr ⟨hf, hav⟩
        have hnd : (requiredFields.filter (absentOrNull kvs)).Nodup :=
          List.Nodup.filter _ (by decide)
        simp [List.count_eq_one_of_mem hnd hmemf]
      · rw [if_neg hav]
        have : field ∉ requiredFields.filter (absentOrNull kvs) := by
          intro hmem
          exact hav (List.mem_filter.mp hmem).2
        simp [List.count_eq_zero_of_not_mem this]
    · intro s
      rw [List.count_append, List.count_append]
      have hseg1 : List.count (nameMismatchFinding u.dirName s)
          ((requiredFields.filter (absentOrNull kvs)).map (missingFieldFinding u.dirName)) = 0 := by
        apply List.count_eq_zero_of_not_mem
        intro hmem
        rcases List.mem_map.mp hmem with ⟨f, _, heq⟩
        have hsrc := congrArg Finding.sources heq
        cases hsrc
      have hseg2 : (List.count (nameMismatchFinding u.dirName s)
          (match (jlookup kvs "version").getD .null with
           | .str s2 => if SEMVER_RE_match s2 then [] else [badSemverFinding u.dirName s2]
           | .null => []
           | v => [versionTypeFinding u.dirName v])) = 0 := by
        apply List.count_eq_zero_of_not_mem
        intro hmem
        split at hmem
        · split at hmem
          · cases hmem
          · rcases List.mem_singleton.mp hmem with heq
            have hsrc := congrArg Finding.sources heq
            cases hsrc
        · cases hmem
        · rcases List.mem_singleton.mp hmem with heq
          have hsrc := congrArg Finding.sources heq
          cases hsrc
      rw [hseg1, hseg2]
      cases hlook : (jlookup kvs "name").getD .null with
      | str s2 =>
        by_cases hs : s2 = s
        · subst hs
          by_cases hd : s2 ≠ u.dirName
          · simp [hd]
          · simp [hd]
        · have hrhs : ¬ (Json.str s2 = Json.str s ∧ s ≠ u.dirName) := by
            intro hc
            exact hs (by injection hc.1)
          rw [if_neg hrhs]
          by_cases hd : s2 ≠ u.dirName
          · simp only [hd, if_pos]
            have hnm : nameMismatchFinding u.dirName s ∉ [nameMismatchFinding u.dirName s2] := by
              intro hmem
              rcases List.mem_singleton.mp hmem with heq
              have hsrc := congrArg Finding.sources heq
              simp only [nameMismatchFinding, List.cons.injEq, Prod.mk.injEq,
                Json.str.injEq] at hsrc
              exact hs hsrc.1.2.symm
            simp [hd, List.count_eq_zero_of_not_mem hnm]
          · simp [hd]
      | null => simp
      | bool b => simp
      | num n => simp
      | arr xs => simp
      | obj o => simp

/-- Filesystem oracle on which nothing exists, for concrete instances. -/
def fsNone : UnitFS := ⟨fun _ => false, fun _ => false, fun p => p⟩

/-- Listing-only unit of the C4 witness. -/
def unitOnlyListing : PluginUnit := ⟨"em", none, some (.obj []), none, fsNone⟩

/-- Unit of the C4 witness with neither manifest file. -/
def unitNoManifests : PluginUnit := ⟨"raw", none, none, none, fsNone⟩

/-- Unit of the C4 witness with a null version and a mismatched name. -/
def unitPartialManifest : PluginUnit :=
  ⟨"part", some (.obj [("name", .str "other"), ("version", .null)]), none, none, fsNone⟩

theorem claim4_witness :
    check_plugin_json_schema unitOnlyListing = .ok [] ∧
    check_plugin_json_schema unitNoManifests = .ok [noManifestFinding "raw"] ∧
    ∃ l, check_plugin_json_schema unitPartialManifest = .ok l ∧
      l.count (missingFieldFinding "part" "version") = 1 ∧
      l.count (missingFieldFinding "part" "name") = 0 ∧
      l.count (nameMismatchFinding "part" "other") = 1 := by
  refine ⟨claim4_schema_rule.1 unitOnlyListing rfl (by simp [unitOnlyListing]),
    claim4_schema_rule.2.1 unitNoManifests rfl rfl, ?_⟩
  obtain ⟨l, hl, hcount, hname⟩ := claim4_schema_rule.2.2 unitPartialManifest _ rfl
  exact ⟨l, hl, (hcount "version" (by decide)).trans (by decide),
    (hcount "name" (by decide)).trans (by decide), (hname "other").trans (by decide)⟩

/-- Unit of the C2 witness: manifest version 2.0.0, changelog top entry
1.9.0. -/
def unitC2 : PluginUnit :=
  ⟨"alpha",
   some (.obj [("name", .str "alpha"), ("version", .str "2.0.0")]),
   none, some "## [1.9.0] - 2026-01-01\n", fsNone⟩

/-- Site metadata index of the C2 witness: version 2.0.0 for the unit. -/
def siteMetaC2 : Option Json :=
  some (.obj [("plugins", .obj [("alpha", .obj [("version", .str "2.0.0")])])])

theorem claim2_witness :
    check_version_consistency unitC2 siteMetaC2 =
      .ok [changelogMismatchFinding "alpha" "2.0.0" "1.9.0"] ∧
    (changelogMismatchFinding "alpha" "2.0.0" "1.9.0").severity = "HIGH" ∧
    ([changelogMismatchFinding "alpha" "2.0.0" "1.9.0"].filter
      (fun f => f.severity = "CRITICAL")).length = 0 := by
  refine ⟨?_, rfl, rfl⟩
  have h := claim2_version_consistency.2 unitC2 siteMetaC2 "2.0.0" rfl
    (Or.inr ⟨_, rfl, _, rfl, Or.inr ⟨_, rfl⟩⟩)
  exact h.trans (by rfl)

/-! ## Claim C5: the component declaration rule -/

/-- Strings of a Json list, in order; on well-shaped declaration arrays
this is the list of declared path texts. -/
def strsOf (xs : List Json) : List String :=
  xs.filterMap fun v => match v with | .str s => some s | _ => none

/-- Declared paths of one plugins entry for one category, for well-shaped
entries. -/
def declaredPaths (e : Json) (ct : String) : List String :=
  match e with
  | .obj kvs =>
    match (jlookup kvs ct).getD (.arr []) with
    | .arr xs => strsOf xs
    | _ => []
  | _ => []

/-- Shape of one plugins entry under which the component rule cannot raise:
an object whose four category fields, when present, are arrays of
strings. -/
def entryWf (e : Json) : Prop :=
  ∃ kvs, e = .obj kvs ∧ ∀ ct ∈ componentTypes,
    ∃ xs, (jlookup kvs ct).getD (.arr []) = .arr xs ∧ ∀ v ∈ xs, ∃ s, v = .str s

/-- Findings demanded by the amended claim for one plugins entry: one HIGH
per declared path that does not exist on disk, then one HIGH per absolute
declared path, then one MEDIUM per conventional directory that exists on
disk with no declared path of this entry resolving to it. -/
def entrySpec (fs : UnitFS) (name : String) (e : Json) : List Finding :=
  (componentTypes.flatMap fun ct =>
    ((declaredPaths e ct).filter fun p => !fs.pathExists (joinPath name p)).map
      (missingPathFinding name ct))
  ++ (componentTypes.flatMap fun ct =>
    ((declaredPaths e ct).filter isAbsolutePath).map (absolutePathFinding name ct))
  ++ (undeclaredPairs.flatMap fun pair =>
    if fs.pathExists (joinPath name pair.2) && fs.isDir (joinPath name pair.2) then
      if (declaredPaths e pair.1).any
          (fun p => fs.resolvePath (joinPath name p) = fs.resolvePath (joinPath name pair.2))
      then [] else [undeclaredDirFinding name pair.2 pair.1]
    else [])

theorem flatMap_ite_nil {α : Type} (p : α → Bool) (g : α → Finding) (xs : List α) :
    (xs.flatMap fun x => if p x then [] else [g x]) = (xs.filter fun x => !p x).map g := by
  induction xs with
  | nil => rfl
  | cons x xs ih =>
      by_cases hx : p x <;> simp [List.filter_cons, hx, ih]

theorem collectM_ok_of_str (step : Json → Except PyErr (List Finding))
    (F : String → List Finding) (hstep : ∀ s, step (.str s) = .ok (F s)) :
    ∀ xs : List Json, (∀ v ∈ xs, ∃ s, v = .str s) →
      collectM step xs = .ok ((strsOf xs).flatMap F)
  | [], _ => rfl
  | x :: xs, h => by
      obtain ⟨s, rfl⟩ := h x (List.mem_cons_self x xs)
      simp only [collectM, hstep s,
        collectM_ok_of_str step F hstep xs
          (fun v hv => h v (List.mem_cons_of_mem _ hv)),
        strsOf, List.filterMap_cons]
      simp [strsOf]

theorem anyResolves_ok (fs : UnitFS) (dir dirPath : String) :
    ∀ xs : List Json, (∀ v ∈ xs, ∃ s, v = .str s) →
      anyResolves fs dir dirPath xs =
        .ok ((strsOf xs).any fun p =>
          fs.resolvePath (joinPath dir p) = fs.resolvePath dirPath)
  | [], _ => rfl
  | x :: xs, h => by
      obtain ⟨s, rfl⟩ := h x (List.mem_cons_self x xs)
      simp only [anyResolves, pyAsPathStr]
      by_cases hr : fs.resolvePath (joinPath dir s) = fs.resolvePath dirPath
      · simp [strsOf, hr]
      · rw [if_neg hr,
          anyResolves_ok fs dir dirPath xs (fun v hv => h v (List.mem_cons_of_mem _ hv))]
        simp [strsOf, hr]

/-- Claim C5, amended: for a unit whose component declaration manifest is
an object with a well-shaped plugins array, the rule output is the
concatenation, per entry of that array, of one HIGH finding per declared
path that does not exist on disk naming the category and the path, one HIGH
finding per absolute declared path independently of existence, and one
MEDIUM finding per conventional category directory that exists on disk with
no declared path of that entry resolving to it by canonical path equality;
in particular a manifest with an empty or missing plugins array produces no
finding at all. -/
theorem claim5_components_rule (u : PluginUnit) (mkvs : List (String × Json))
    (entries : List Json)
    (hm : u.marketplace_json = some (.obj mkvs))
    (hpl : (jlookup mkvs "plugins").getD (.arr []) = .arr entries)
    (hwf : ∀ e ∈ entries, entryWf e) :
    check_marketplace_components u = .ok (entries.flatMap (entrySpec u.fs u.dirName)) := by
  have houter1 : pyGetD (Json.obj mkvs) "plugins" (Json.arr []) = .ok (Json.arr entries) := by
    simp [pyGetD, hpl]
  have houter2 : pyIter (Json.arr entries) = .ok entries := rfl
  simp only [check_marketplace_components, hm, houter1, houter2]
  apply collectM_congr_ok
  intro e he
  obtain ⟨kvs, rfl, hcats⟩ := hwf e he
  have h1 : collectM (fun ct =>
      match pyGetD (Json.obj kvs) ct (Json.arr []) with
      | .error er => .error er
      | .ok dv =>
        match pyIter dv with
        | .error er => .error er
        | .ok ds =>
          collectM (fun pv =>
            match pyAsPathStr pv with
            | .error er => .error er
            | .ok p =>
              if u.fs.pathExists (joinPath u.dirName p) then .ok []
              else .ok [missingPathFinding u.dirName ct p]) ds) componentTypes
      = .ok (componentTypes.flatMap fun ct =>
          ((declaredPaths (Json.obj kvs) ct).filter
            fun p => !u.fs.pathExists (joinPath u.dirName p)).map
            (missingPathFinding u.dirName ct)) := by
    apply collectM_congr_ok
    intro ct hct
    obtain ⟨xs, hxs, hstr⟩ := hcats ct hct
    simp only [pyGetD, hxs, pyIter]
    rw [collectM_ok_of_str _
      (fun p => if u.fs.pathExists (joinPath u.dirName p) then []
        else [missingPathFinding u.dirName ct p])
      (fun s => by simp only [pyAsPathStr]; split <;> rfl) xs hstr]
    rw [flatMap_ite_nil]
    simp only [declaredPaths, hxs]
  have h2 : collectM (fun ct =>
      match pyGetD (Json.obj kvs) ct (Json.arr []) with
      | .error er => .error er
      | .ok dv =>
        match pyIter dv with
        | .error er => .error er
        | .ok ds =>
          collectM (fun pv =>
            match pyAsPathStr pv with
            | .error er => .error er
            | .ok p =>
              if isAbsolutePath p then .ok [absolutePathFinding u.dirName ct p]
              else .ok []) ds) componentTypes
      = .ok (componentTypes.flatMap fun ct =>
          ((declaredPaths (Json.obj kvs) ct).filter isAbsolutePath).map
            (absolutePathFinding u.dirName ct)) := by
    apply collectM_congr_ok
    intro ct hct
    obtain ⟨xs, hxs, hstr⟩ := hcats ct hct
    simp only [pyGetD, hxs, pyIter]
    rw [collectM_ok_of_str _
      (fun p => if isAbsolutePath p then [absolutePathFinding u.dirName ct p] else [])
      (fun s => by simp only [pyAsPathStr]; split <;> rfl) xs hstr]
    rw [flatMap_ite_singleton]
    simp only [declaredPaths, hxs]
  have h3 : collectM (fun (pair : String × String) =>
      if u.fs.pathExists (joinPath u.dirName pair.2) && u.fs.isDir (joinPath u.dirName pair.2) then
        match pyGetD (Json.obj kvs) pair.1 (Json.arr []) with
        | .error er => .error er
        | .ok dv =>
          match pyIter dv with
          | .error er => .error er
          | .ok ds =>
            match anyResolves u.fs u.dirName (joinPath u.dirName pair.2) ds with
            | .error er => .error er
            | .ok m =>
              if m then .ok [] else .ok [undeclaredDirFinding u.dirName pair.2 pair.1]
      else .ok []) undeclaredPairs
      = .ok (undeclaredPairs.flatMap fun pair =>
          if u.fs.pathExists (joinPath u.dirName pair.2) && u.fs.isDir (joinPath u.dirName pair.2) then
            if (declaredPaths (Json.obj kvs) pair.1).any
                (fun p => u.fs.resolvePath (joinPath u.dirName p) =
                  u.fs.resolvePath (joinPath u.dirName pair.2))
            then [] else [undeclaredDirFinding u.dirName pair.2 pair.1]
          else []) := by
    apply collectM_congr_ok
    intro pair hpair
    have hctmem : pair.1 ∈ componentTypes := by
      fin_cases hpair <;> decide
    obtain ⟨xs, hxs, hstr⟩ := hcats pair.1 hctmem
    by_cases hdir : u.fs.pathExists (joinPath u.dirName pair.2) &&
        u.fs.isDir (joinPath u.dirName pair.2)
    · simp only [hdir, if_true, pyGetD, hxs, pyIter,
        anyResolves_ok u.fs u.dirName (joinPath u.dirName pair.2) xs hstr]
      simp only [declaredPaths, hxs]
      split <;> rfl
    · simp [hdir]
  simp only [h1, h2, h3]
  rfl

/-- Unit of the C5 counterexample: a component declaration whose plugins
array is empty, while the conventional skills directory exists on disk. -/
def unitC5empty : PluginUnit :=
  ⟨"u", none, some (.obj [("plugins", .arr [])]), none,
   ⟨fun p => p = "u/skills", fun p => p = "u/skills", fun p => p⟩⟩

/-- Claim C5, counterexample: the claim quantifies per unit, demanding a
MEDIUM finding whenever a conventional category directory exists on disk
and no declared path resolves to it; for a unit whose plugins array is
empty the skills directory exists, no declared path at all resolves to it,
yet the rule, which iterates per entry of the plugins array, produces no
finding. -/
theorem claim5_counterexample :
    unitC5empty.fs.pathExists (joinPath "u" "skills") = true ∧
    unitC5empty.fs.isDir (joinPath "u" "skills") = true ∧
    check_marketplace_components unitC5empty = .ok [] := by
  refine ⟨by decide, by decide, ?_⟩
  rfl

/-- Unit of the C5 witness: a single entry declaring one skills path that
does not exist on disk. -/
def unitC5ex : PluginUnit :=
  ⟨"u", none,
   some (.obj [("plugins", .arr [.obj [("skills", .arr [.str "skills/foo.md"])]])]),
   none, fsNone⟩

theorem claim5_witness :
    check_marketplace_components unitC5ex =
      .ok [missingPathFinding "u" "skills" "skills/foo.md"] ∧
    (missingPathFinding "u" "skills" "skills/foo.md").severity = "HIGH" := by
  refine ⟨?_, rfl⟩
  have hwf : ∀ e ∈ [Json.obj [("skills", Json.arr [Json.str "skills/foo.md"])]], entryWf e := by
    intro e he
    rcases List.mem_singleton.mp he with rfl
    refine ⟨_, rfl, ?_⟩
    intro ct hct
    fin_cases hct
    · exact ⟨_, rfl, by intro v hv; rcases List.mem_singleton.mp hv with rfl; exact ⟨_, rfl⟩⟩
    · exact ⟨[], rfl, by intro v hv; cases hv⟩
    · exact ⟨[], rfl, by intro v hv; cases hv⟩
    · exact ⟨[], rfl, by intro v hv; cases hv⟩
  have h := claim5_components_rule unitC5ex _ _ rfl rfl hwf
  exact h.trans (by rfl)

/-! ## Claim C6: the listing symmetry rule -/

/-- Names of the entries of a marketplace listing, in order, for
well-shaped entries. -/
def namesOf (entries : List Json) : List String :=
  entries.filterMap fun e =>
    match e with
    | .obj kvs =>
      match jlookup kvs "name" with
      | some (.str s) => some s
      | _ => none
    | _ => none

/-- Shape of one listing entry for the name rules: an object carrying a
string name. -/
def entryNameWf (e : Json) : Prop :=
  ∃ kvs s, e = .obj kvs ∧ jlookup kvs "name" = some (.str s)

/-- One insertion step of the Python set model: drop the value when already
present, append it otherwise. -/
def setInsert (acc : List Json) (n : Json) : List Json :=
  if acc.contains n then acc else acc ++ [n]

theorem buildNameSet_ok : ∀ (entries : List Json) (acc : List Json),
    (∀ e ∈ entries, entryNameWf e) →
    buildNameSet acc entries = .ok (((namesOf entries).map Json.str).foldl setInsert acc)
  | [], acc, _ => rfl
  | e :: rest, acc, h => by
      obtain ⟨kvs, s, rfl, hn⟩ := h e (List.mem_cons_self e rest)
      simp only [buildNameSet, pySubscript, hn, pyHashable]
      rw [buildNameSet_ok rest _ (fun x hx => h x (List.mem_cons_of_mem _ hx))]
      simp only [namesOf, List.filterMap_cons, hn]
      rfl

theorem mem_setFold : ∀ (l acc : List Json) (a : Json),
    a ∈ l.foldl setInsert acc ↔ a ∈ acc ∨ a ∈ l
  | [], acc, a => by simp
  | x :: l, acc, a => by
      rw [List.foldl_cons, mem_setFold l (setInsert acc x) a, List.mem_cons]
      unfold setInsert
      by_cases hx : acc.contains x
      · rw [if_pos hx]
        have hxm : x ∈ acc := List.elem_iff.mp hx
        constructor
        · rintro (ha | ha)
          exacts [Or.inl ha, Or.inr (Or.inr ha)]
        · rintro (ha | rfl | ha)
          exacts [Or.inl ha, Or.inl hxm, Or.inr ha]
      · rw [if_neg hx, List.mem_append, List.mem_singleton]
        tauto

theorem nodup_setFold : ∀ (l acc : List Json), acc.Nodup → (l.foldl setInsert acc).Nodup
  | [], _, h => h
  | x :: l, acc, h => by
      rw [List.foldl_cons]
      apply nodup_setFold l
      unfold setInsert
      by_cases hx : acc.contains x
      · rw [if_pos hx]
        exact h
      · rw [if_neg hx]
        rw [List.nodup_append]
        refine ⟨h, List.nodup_singleton x, ?_⟩
        intro a ha hax
        rcases List.mem_singleton.mp hax with rfl
        exact hx (List.elem_iff.mpr ha)

theorem mem_str_map_namesOf {n : String} {xs : List String} :
    Json.str n ∈ xs.map Json.str ↔ n ∈ xs := by
  constructor
  · intro h
    rcases List.mem_map.mp h with ⟨m, hm, heq⟩
    injection heq with heq2
    rw [← heq2]
    exact hm
  · intro h
    exact List.mem_map_of_mem Json.str h

/-- Claim C6: given two truthy, well-shaped marketplace listings, the
listing symmetry rule produces exactly one HIGH finding per name in each
direction of the symmetric difference of the two name sets, and no finding
at all for a name present in both listings. -/
theorem claim6_listing_symmetry (siteMkt empMkt : Option Json)
    (skvs ekvs2 : List (String × Json)) (sentries eentries : List Json)
    (hs : siteMkt = some (.obj skvs)) (he : empMkt = some (.obj ekvs2))
    (hts : truthyOpt siteMkt = true) (hte : truthyOpt empMkt = true)
    (hsp : (jlookup skvs "plugins").getD (.arr []) = .arr sentries)
    (hep : (jlookup ekvs2 "plugins").getD (.arr []) = .arr eentries)
    (hwfs : ∀ e ∈ sentries, entryNameWf e) (hwfe : ∀ e ∈ eentries, entryNameWf e) :
    ∃ l, check_emporium_vs_site siteMkt empMkt = .ok l ∧
      ∀ n : String,
        (l.count (inEmporiumOnlyFinding (.str n)) =
          if n ∈ namesOf eentries ∧ n ∉ namesOf sentries then 1 else 0) ∧
        (l.count (inSiteOnlyFinding (.str n)) =
          if n ∈ namesOf sentries ∧ n ∉ namesOf eentries then 1 else 0) ∧
        (n ∈ namesOf sentries → n ∈ namesOf eentries →
          l.filter (fun f => f.plugin = Json.str n) = []) := by
  subst hs
  subst he
  have h1 : pyGetD (Json.obj skvs) "plugins" (Json.arr []) = .ok (.arr sentries) := by
    simp [pyGetD, hsp]
  have h2 : pyGetD (Json.obj ekvs2) "plugins" (Json.arr []) = .ok (.arr eentries) := by
    simp [pyGetD, hep]
  have h3 := buildNameSet_ok sentries [] hwfs
  have h4 := buildNameSet_ok eentries [] hwfe
  have hcond : (!truthyOpt (some (Json.obj skvs)) || !truthyOpt (some (Json.obj ekvs2))) = false := by
    rw [hts, hte]
    rfl
  have hnds : (((namesOf sentries).map Json.str).foldl setInsert []).Nodup :=
    nodup_setFold _ _ List.nodup_nil
  have hnde : (((namesOf eentries).map Json.str).foldl setInsert []).Nodup :=
    nodup_setFold _ _ List.nodup_nil
  have hmemS : ∀ a, a ∈ ((namesOf sentries).map Json.str).foldl setInsert [] ↔
      a ∈ (namesOf sentries).map Json.str := by
    intro a
    rw [mem_setFold]
    simp
  have hmemE : ∀ a, a ∈ ((namesOf eentries).map Json.str).foldl setInsert [] ↔
      a ∈ (namesOf eentries).map Json.str := by
    intro a
    rw [mem_setFold]
    simp
  have hcomp : check_emporium_vs_site (some (Json.obj skvs)) (some (Json.obj ekvs2)) = .ok
      ((((((namesOf eentries).map Json.str).foldl setInsert []).filter
          (fun m => !(((namesOf sentries).map Json.str).foldl setInsert []).contains m)).map
          inEmporiumOnlyFinding)
        ++ (((((namesOf sentries).map Json.str).foldl setInsert []).filter
          (fun m => !(((namesOf eentries).map Json.str).foldl setInsert []).contains m)).map
          inSiteOnlyFinding)) := by
    simp only [check_emporium_vs_site, hcond, Bool.false_eq_true, if_false,
      Option.getD_some, h1, h2, pyIter, h3, h4]
  refine ⟨_, hcomp, ?_⟩
  intro n
  set sN := ((namesOf sentries).map Json.str).foldl setInsert [] with hsNdef
  set eN := ((namesOf eentries).map Json.str).foldl setInsert [] with heNdef
  have hinj1 : Function.Injective inEmporiumOnlyFinding := by
    intro a b hab
    exact congrArg Finding.plugin hab
  have hinj2 : Function.Injective inSiteOnlyFinding := by
    intro a b hab
    exact congrArg Finding.plugin hab
  have hcount1seg2 : List.count (inEmporiumOnlyFinding (.str n))
      ((sN.filter fun m => !eN.contains m).map inSiteOnlyFinding) = 0 := by
    apply List.count_eq_zero_of_not_mem
    intro hmem
    rcases List.mem_map.mp hmem with ⟨m, _, heq⟩
    have := congrArg Finding.message heq
    simp [inSiteOnlyFinding, inEmporiumOnlyFinding] at this
  have hcount2seg1 : List.count (inSiteOnlyFinding (.str n))
      ((eN.filter fun m => !sN.contains m).map inEmporiumOnlyFinding) = 0 := by
    apply List.count_eq_zero_of_not_mem
    intro hmem
    rcases List.mem_map.mp hmem with ⟨m, _, heq⟩
    have := congrArg Finding.message heq
    simp [inSiteOnlyFinding, inEmporiumOnlyFinding] at this
  refine ⟨?_, ?_, ?_⟩
  · rw [List.count_append, hcount1seg2, Nat.add_zero,
      List.count_map_of_injective _ _ hinj1]
    by_cases hin : n ∈ namesOf eentries ∧ n ∉ namesOf sentries
    · rw [if_pos hin]
      apply List.count_eq_one_of_mem (List.Nodup.filter _ hnde)
      rw [List.mem_filter]
      refine ⟨(hmemE _).mpr (mem_str_map_namesOf.mpr hin.1), ?_⟩
      simp only [Bool.not_eq_eq_eq_not, Bool.not_true]
      by_cases hc : sN.contains (Json.str n)
      · exact absurd (mem_str_map_namesOf.mp ((hmemS _).mp (List.elem_iff.mp hc))) hin.2
      · simpa using hc
    · rw [if_neg hin]
      apply List.count_eq_zero_of_not_mem
      rw [List.mem_filter]
      rintro ⟨hmem, hnc⟩
      have hne : n ∈ namesOf eentries := mem_str_map_namesOf.mp ((hmemE _).mp hmem)
      have hns : n ∉ namesOf sentries := by
        intro hcontra
        have hmemc : Json.str n ∈ sN := (hmemS _).mpr (mem_str_map_namesOf.mpr hcontra)
        have hc : sN.contains (Json.str n) = true := List.elem_iff.mpr hmemc
        rw [hc] at hnc
        simp at hnc
      exact hin ⟨hne, hns⟩
  · rw [List.count_append, hcount2seg1, Nat.zero_add,
      List.count_map_of_injective _ _ hinj2]
    by_cases hin : n ∈ namesOf sentries ∧ n ∉ namesOf eentries
    · rw [if_pos hin]
      apply List.count_eq_one_of_mem (List.Nodup.filter _ hnds)
      rw [List.mem_filter]
      refine ⟨(hmemS _).mpr (mem_str_map_namesOf.mpr hin.1), ?_⟩
      by_cases hc : eN.contains (Json.str n)
      · exact absurd (mem_str_map_namesOf.mp ((hmemE _).mp (List.elem_iff.mp hc))) hin.2
      · simpa using hc
    · rw [if_neg hin]
      apply List.count_eq_zero_of_not_mem
      rw [List.mem_filter]
      rintro ⟨hmem, hnc⟩
      have hne : n ∈ namesOf sentries := mem_str_map_namesOf.mp ((hmemS _).mp hmem)
      have hns : n ∉ namesOf eentries := by
        intro hcontra
        have hmemc : Json.str n ∈ eN := (hmemE _).mpr (mem_str_map_namesOf.mpr hcontra)
        have hc : eN.contains (Json.str n) = true := List.elem_iff.mpr hmemc
        rw [hc] at hnc
        simp at hnc
      exact hin ⟨hne, hns⟩
  · intro hinS hinE
    rw [List.filter_append]
    have hf1 : ((eN.filter fun m => !sN.contains m).map inEmporiumOnlyFinding).filter
        (fun f => f.plugin = Json.str n) = [] := by
      rw [List.filter_eq_nil_iff]
      intro f hf
      rcases List.mem_map.mp hf with ⟨m, hm, rfl⟩
      rcases List.mem_filter.mp hm with ⟨_, hnc⟩
      simp only [inEmporiumOnlyFinding, decide_eq_true_eq]
      rintro rfl
      have hmemc : Json.str n ∈ sN := (hmemS _).mpr (mem_str_map_namesOf.mpr hinS)
      have hc : sN.contains (Json.str n) = true := List.elem_iff.mpr hmemc
      rw [hc] at hnc
      simp at hnc
    have hf2 : ((sN.filter fun m => !eN.contains m).map inSiteOnlyFinding).filter
        (fun f => f.plugin = Json.str n) = [] := by
      rw [List.filter_eq_nil_iff]
      intro f hf
      rcases List.mem_map.mp hf with ⟨m, hm, rfl⟩
      rcases List.mem_filter.mp hm with ⟨_, hnc⟩
      simp only [inSiteOnlyFinding, decide_eq_true_eq]
      rintro rfl
      have hmemc : Json.str n ∈ eN := (hmemE _).mpr (mem_str_map_namesOf.mpr hinE)
      have hc : eN.contains (Json.str n) = true := List.elem_iff.mpr hmemc
      rw [hc] at hnc
      simp at hnc
    rw [hf1, hf2]
    rfl

/-- Site listing of the C6 witness, holding only the shared unit. -/
def siteMktC6 : Option Json :=
  some (.obj [("plugins", .arr [.obj [("name", .str "shared")]])])

/-- Emporium listing of the C6 witness, holding the shared unit and one
extra unit x. -/
def empMktC6 : Option Json :=
  some (.obj [("plugins", .arr [.obj [("name", .str "shared")], .obj [("name", .str "x")]])])

theorem claim6_witness :
    ∃ l, check_emporium_vs_site siteMktC6 empMktC6 = .ok l ∧
      l.count (inEmporiumOnlyFinding (.str "x")) = 1 ∧
      l.count (inSiteOnlyFinding (.str "x")) = 0 ∧
      l.filter (fun f => f.plugin = Json.str "shared") = [] := by
  have hwf1 : ∀ e ∈ [Json.obj [("name", Json.str "shared")]], entryNameWf e := by
    intro e he
    rcases List.mem_singleton.mp he with rfl
    exact ⟨_, _, rfl, rfl⟩
  have hwf2 : ∀ e ∈ [Json.obj [("name", Json.str "shared")], Json.obj [("name", Json.str "x")]],
      entryNameWf e := by
    intro e he
    rcases List.mem_cons.mp he with rfl | he2
    · exact ⟨_, _, rfl, rfl⟩
    · rcases List.mem_singleton.mp he2 with rfl
      exact ⟨_, _, rfl, rfl⟩
  obtain ⟨l, hl, hprops⟩ := claim6_listing_symmetry siteMktC6 empMktC6 _ _ _ _
    rfl rfl rfl rfl rfl rfl hwf1 hwf2
  refine ⟨l, hl, ?_, ?_, ?_⟩
  · exact ((hprops "x").1).trans (by decide)
  · exact ((hprops "x").2.1).trans (by decide)
  · exact (hprops "shared").2.2 (by decide) (by decide)

/-! ## Claim C7: the metadata completeness rule -/

/-- Name of a well-shaped listing entry. -/
def entryName (e : Json) : String :=
  match e with
  | .obj kvs =>
    match jlookup kvs "name" with
    | some (.str s) => s
    | _ => ""
  | _ => ""

/-- Findings demanded by the amended claim for one listed name: a HIGH
finding when the index has no entry for the name, else a MEDIUM finding
when the entry version field is absent or falsy and a LOW finding when the
entry tags field is absent or falsy, the two evaluated independently. -/
def metaSpecPerName (pkvs : List (String × Json)) (n : String) : List Finding :=
  match jlookup pkvs n with
  | none => [noMetaEntryFinding (.str n)]
  | some e =>
    match e with
    | .obj ekvs =>
      (if !((jlookup ekvs "version").getD .null).truthy then [noMetaVersionFinding (.str n)]
       else [])
      ++ (if !((jlookup ekvs "tags").getD .null).truthy then [noMetaTagsFinding (.str n)]
       else [])
    | _ => []

theorem jlookup_mem {kvs : List (String × Json)} {k : String} {v : Json}
    (h : jlookup kvs k = some v) : (k, v) ∈ kvs := by
  induction kvs with
  | nil => cases h
  | cons kv rest ih =>
      obtain ⟨k2, v2⟩ := kv
      simp only [jlookup] at h
      split at h
      · rename_i hk
        cases h
        rw [hk]
        exact List.mem_cons_self _ _
      · exact List.mem_cons_of_mem _ (ih h)

theorem namesOf_eq_map {entries : List Json} (hwf : ∀ e ∈ entries, entryNameWf e) :
    namesOf entries = entries.map entryName := by
  induction entries with
  | nil => rfl
  | cons e rest ih =>
      obtain ⟨kvs, s, rfl, hn⟩ := hwf e (List.mem_cons_self e rest)
      simp only [namesOf, List.filterMap_cons, hn, List.map_cons]
      rw [← namesOf]
      rw [ih (fun x hx => hwf x (List.mem_cons_of_mem _ hx))]
      simp [entryName, hn]

theorem flatMap_map_eq {α β γ : Type} (f : α → β) (g : β → List γ) :
    ∀ l : List α, (l.map f).flatMap g = l.flatMap fun x => g (f x) := by
  intro l
  induction l with
  | nil => rfl
  | cons x xs ih => simp [ih]

/-- Claim C7, amended: for truthy, well-shaped sources, the metadata
completeness rule produces, per name listed in the site marketplace
listing, a HIGH finding when the site metadata index has no entry for the
name, else a MEDIUM finding when the entry version field is absent or falsy
(for example an empty string) and a LOW finding when the entry tags field
is absent or falsy, the MEDIUM and LOW conditions evaluated independently
so both can fire, and no finding for an entry whose two fields are present
and truthy. -/
theorem claim7_meta_completeness (siteMkt siteMeta : Option Json)
    (skvs mkvs : List (String × Json)) (sentries : List Json) (pkvs : List (String × Json))
    (hs : siteMkt = some (.obj skvs)) (hm : siteMeta = some (.obj mkvs))
    (hts : truthyOpt siteMkt = true) (htm : truthyOpt siteMeta = true)
    (hsp : (jlookup skvs "plugins").getD (.arr []) = .arr sentries)
    (hmp : (jlookup mkvs "plugins").getD (.obj []) = .obj pkvs)
    (hwf : ∀ e ∈ sentries, entryNameWf e)
    (hwfm : ∀ kv ∈ pkvs, ∃ ekvs, (kv : String × Json).2 = .obj ekvs) :
    check_site_meta_completeness siteMkt siteMeta =
      .ok ((namesOf sentries).flatMap (metaSpecPerName pkvs)) := by
  subst hs
  subst hm
  have hcond : (!truthyOpt (some (Json.obj skvs)) || !truthyOpt (some (Json.obj mkvs))) = false := by
    rw [hts, htm]
    rfl
  have h1 : pyGetD (Json.obj mkvs) "plugins" (Json.obj []) = .ok (.obj pkvs) := by
    simp [pyGetD, hmp]
  have h2 : pyGetD (Json.obj skvs) "plugins" (Json.arr []) = .ok (.arr sentries) := by
    simp [pyGetD, hsp]
  simp only [check_site_meta_completeness, hcond, Bool.false_eq_true, if_false,
    Option.getD_some, h1, h2, pyIter]
  rw [namesOf_eq_map hwf, flatMap_map_eq]
  apply collectM_congr_ok
  intro e he
  obtain ⟨kvs, s, rfl, hn⟩ := hwf e he
  have hname : entryName (Json.obj kvs) = s := by simp [entryName, hn]
  rw [hname]
  simp only [pySubscript, hn, pyMemberOf, pyHashable]
  cases hlk : jlookup pkvs s with
  | none =>
    have hany : (pkvs.any fun kv => kv.1 = s) = false := (jlookup_eq_none_iff pkvs s).mp hlk
    simp [hany, metaSpecPerName, hlk]
  | some e2 =>
    have hany : (pkvs.any fun kv => kv.1 = s) = true := by
      cases hb : pkvs.any fun kv => kv.1 = s
      · exact absurd hlk (by rw [(jlookup_eq_none_iff pkvs s).mpr hb]; simp)
      · rfl
    obtain ⟨ekvs, he2⟩ := hwfm (s, e2) (jlookup_mem hlk)
    simp only at he2
    subst he2
    simp only [hany, Bool.not_true, Bool.false_eq_true, if_false, pyIndexSubscript, hlk,
      pyGetD, metaSpecPerName]
    rfl

/-- Site marketplace listing of the C7 counterexample, listing one unit. -/
def siteMktC7 : Option Json := some (.obj [("plugins", .arr [.obj [("name", .str "x")]])])

/-- Site metadata index of the C7 counterexample: the entry carries both a
version field and a tags field, but the version is the empty string. -/
def siteMetaC7 : Option Json :=
  some (.obj [("plugins",
    .obj [("x", .obj [("version", .str ""), ("tags", .arr [.str "t"])])])])

/-- Claim C7, counterexample: the claim ties the MEDIUM finding to a
missing version field and promises no finding for an entry that has both
fields; here the entry has both fields, the version merely being the empty
string, yet the rule emits a MEDIUM finding, because the code tests
truthiness of the value rather than presence of the field. -/
theorem claim7_counterexample :
    jlookup [("version", Json.str ""), ("tags", Json.arr [Json.str "t"])] "version" =
      some (Json.str "") ∧
    jlookup [("version", Json.str ""), ("tags", Json.arr [Json.str "t"])] "tags" =
      some (Json.arr [Json.str "t"]) ∧
    check_site_meta_completeness siteMktC7 siteMetaC7 = .ok [noMetaVersionFinding (.str "x")] := by
  exact ⟨rfl, rfl, rfl⟩

/-- Site marketplace listing of the C7 witness, listing units a and b. -/
def siteMktC7w : Option Json :=
  some (.obj [("plugins", .arr [.obj [("name", .str "a")], .obj [("name", .str "b")]])])

/-- Site metadata index of the C7 witness: an entry for a with a truthy
version and no tags, no entry for b. -/
def siteMetaC7w : Option Json :=
  some (.obj [("plugins", .obj [("a", .obj [("version", .str "1.0.0")])])])

theorem claim7_witness :
    check_site_meta_completeness siteMktC7w siteMetaC7w =
      .ok [noMetaTagsFinding (.str "a"), noMetaEntryFinding (.str "b")] := by
  have hwf : ∀ e ∈ [Json.obj [("name", Json.str "a")], Json.obj [("name", Json.str "b")]],
      entryNameWf e := by
    intro e he
    rcases List.mem_cons.mp he with rfl | he2
    · exact ⟨_, _, rfl, rfl⟩
    · rcases List.mem_singleton.mp he2 with rfl
      exact ⟨_, _, rfl, rfl⟩
  have hwfm : ∀ kv ∈ [("a", Json.obj [("version", Json.str "1.0.0")])],
      ∃ ekvs, (kv : String × Json).2 = .obj ekvs := by
    intro kv hkv
    rcases List.mem_singleton.mp hkv with rfl
    exact ⟨_, rfl⟩
  have h := claim7_meta_completeness siteMktC7w siteMetaC7w _ _ _ _
    rfl rfl rfl rfl rfl rfl hwf hwfm
  exact h.trans (by rfl)

/-! ## Severity validity of every rule evaluator -/

theorem schema_sev (u : PluginUnit) :
    ∀ l, check_plugin_json_schema u = .ok l → ∀ f ∈ l, f.severity ∈ SEVERITIES := by
  intro l h f hf
  simp only [check_plugin_json_schema] at h
  cases hpj : u.plugin_json with
  | none =>
    simp only [hpj] at h
    cases hmkt : u.marketplace_json with
    | some m =>
      simp only [hmkt] at h
      cases h
      cases hf
    | none =>
      simp only [hmkt] at h
      cases h
      rcases List.mem_singleton.mp hf with rfl
      simp [noManifestFinding, SEVERITIES]
  | some pj =>
    simp only [hpj] at h
    cases hreq : collectM (fun field =>
        match pyContains pj field with
        | .error e => .error e
        | .ok present =>
          if !present then .ok [missingFieldFinding u.dirName field]
          else
            match pySubscript pj field with
            | .error e => .error e
            | .ok v =>
              if v = Json.null then .ok [missingFieldFinding u.dirName field]
              else .ok []) requiredFields with
    | error e =>
      rw [hreq] at h
      cases h
    | ok reqF =>
      rw [hreq] at h
      cases hver : pyGetD pj "version" Json.null with
      | error e =>
        rw [hver] at h
        simp only at h
        cases h
      | ok vv =>
        rw [hver] at h
        simp only at h
        cases hnm : pyGetD pj "name" Json.null with
        | error e =>
          rw [hnm] at h
          simp only at h
          cases h
        | ok nv =>
          rw [hnm] at h
          simp only at h
          cases h
          rcases List.mem_append.mp hf with hm | hm3
          · rcases List.mem_append.mp hm with hm1 | hm2
            · refine collectM_all _ (fun g => g.severity ∈ SEVERITIES) ?_ _ _ hreq f hm1
              intro x l2 hx g hg
              split at hx
              · cases hx
              · split at hx
                · cases hx
                  rcases List.mem_singleton.mp hg with rfl
                  simp [missingFieldFinding, SEVERITIES]
                · split at hx
                  · cases hx
                  · split at hx
                    · cases hx
                      rcases List.mem_singleton.mp hg with rfl
                      simp [missingFieldFinding, SEVERITIES]
                    · cases hx
                      cases hg
            · split at hm2
              · split at hm2
                · cases hm2
                · rcases List.mem_singleton.mp hm2 with rfl
                  simp [badSemverFinding, SEVERITIES]
              · cases hm2
              · rcases List.mem_singleton.mp hm2 with rfl
                simp [versionTypeFinding, SEVERITIES]
          · split at hm3
            · split at hm3
              · rcases List.mem_singleton.mp hm3 with rfl
                simp [nameMismatchFinding, SEVERITIES]
              · cases hm3
            · cases hm3

theorem components_sev (u : PluginUnit) :
    ∀ l, check_marketplace_components u = .ok l → ∀ f ∈ l, f.severity ∈ SEVERITIES := by
  intro l h f hf
  unfold check_marketplace_components at h
  split at h
  · cases h
    cases hf
  · split at h
    · cases h
    · split at h
      · cases h
      · refine collectM_all _ (fun g => g.severity ∈ SEVERITIES) ?_ _ _ h f hf
        intro e l2 he g hg
        split at he
        · cases he
        · rename_i existF hexist
          split at he
          · cases he
          · rename_i absF habs
            split at he
            · cases he
            · rename_i undeclF hundecl
              cases he
              rcases List.mem_append.mp hg with hm | hm3
              · rcases List.mem_append.mp hm with hm1 | hm2
                · refine collectM_all _ (fun g2 => g2.severity ∈ SEVERITIES) ?_ _ _ hexist g hm1
                  intro ct l3 hct g2 hg2
                  split at hct
                  · cases hct
                  · split at hct
                    · cases hct
                    · refine collectM_all _ (fun g3 => g3.severity ∈ SEVERITIES) ?_ _ _ hct g2 hg2
                      intro pv l4 hpv g3 hg3
                      split at hpv
                      · cases hpv
                      · split at hpv
                        · cases hpv
                          cases hg3
                        · cases hpv
                          rcases List.mem_singleton.mp hg3 with rfl
                          simp [missingPathFinding, SEVERITIES]
                · refine collectM_all _ (fun g2 => g2.severity ∈ SEVERITIES) ?_ _ _ habs g hm2
                  intro ct l3 hct g2 hg2
                  split at hct
                  · cases hct
                  · split at hct
                    · cases hct
                    · refine collectM_all _ (fun g3 => g3.severity ∈ SEVERITIES) ?_ _ _ hct g2 hg2
                      intro pv l4 hpv g3 hg3
                      split at hpv
                      · cases hpv
                      · split at hpv
                        · cases hpv
                          rcases List.mem_singleton.mp hg3 with rfl
                          simp [absolutePathFinding, SEVERITIES]
                        · cases hpv
                          cases hg3
              · refine collectM_all _ (fun g2 => g2.severity ∈ SEVERITIES) ?_ _ _ hundecl g hm3
                intro pair l3 hpair g2 hg2
                dsimp only at hpair
                split at hpair
                · split at hpair
                  · cases hpair
                  · split at hpair
                    · cases hpair
                    · split at hpair
                      · cases hpair
                      · split at hpair
                        · cases hpair
                          cases hg2
                        · cases hpair
                          rcases List.mem_singleton.mp hg2 with rfl
                          simp [undeclaredDirFinding, SEVERITIES]
                · cases hpair
                  cases hg2

theorem clFindings_sev (name v : String) (c : Option String) :
    ∀ g ∈ (match get_changelog_version c with
      | some w => if w ≠ "" && w ≠ v then [changelogMismatchFinding name v w] else []
      | none => []), (g : Finding).severity ∈ SEVERITIES := by
  intro g hg
  split at hg
  · split at hg
    · rcases List.mem_singleton.mp hg with rfl
      simp [changelogMismatchFinding, SEVERITIES]
    · cases hg
  · cases hg

theorem version_sev (u : PluginUnit) (sm : Option Json) :
    ∀ l, check_version_consistency u sm = .ok l → ∀ f ∈ l, f.severity ∈ SEVERITIES := by
  intro l h f hf
  simp only [check_version_consistency] at h
  split at h
  · cases h
    cases hf
  · split at h
    · cases h
    · split at h
      · split at h
        · cases h
          cases hf
        · split at h
          · cases h
            rcases List.mem_append.mp hf with hm | hm
            · exact clFindings_sev u.dirName _ u.changelog f hm
            · cases hm
          · split at h
            · split at h
              · cases h
              · split at h
                · cases h
                · split at h
                  · split at h
                    · split at h
                      · cases h
                      · split at h
                        · cases h
                          rcases List.mem_append.mp hf with hm | hm
                          · exact clFindings_sev u.dirName _ u.changelog f hm
                          · rcases List.mem_singleton.mp hm with rfl
                            simp [siteMismatchFinding, SEVERITIES]
                        · cases h
                          rcases List.mem_append.mp hf with hm | hm
                          · exact clFindings_sev u.dirName _ u.changelog f hm
                          · cases hm
                    · cases h
                      rcases List.mem_append.mp hf with hm | hm
                      · exact clFindings_sev u.dirName _ u.changelog f hm
                      · cases hm
                  · cases h
                    rcases List.mem_append.mp hf with hm | hm
                    · exact clFindings_sev u.dirName _ u.changelog f hm
                    · cases hm
            · cases h
              rcases List.mem_append.mp hf with hm | hm
              · exact clFindings_sev u.dirName _ u.changelog f hm
              · cases hm
      · cases h
        cases hf

theorem desc_sev (a b : Option Json) :
    ∀ l, check_description_consistency a b = .ok l → ∀ f ∈ l, f.severity ∈ SEVERITIES := by
  intro l h f hf
  unfold check_description_consistency at h
  split at h
  · cases h
    cases hf
  · dsimp only at h
    split at h
    · cases h
    · split at h
      · cases h
      · split at h
        · cases h
        · split at h
          · cases h
          · split at h
            · cases h
            · split at h
              · cases h
              · refine collectM_all _ (fun g => g.severity ∈ SEVERITIES) ?_ _ _ h f hf
                intro kv l2 hkv g hg
                split at hkv
                · split at hkv
                  · split at hkv
                    · cases hkv
                    · split at hkv
                      · cases hkv
                      · cases hkv
                        rcases List.mem_singleton.mp hg with rfl
                        simp [descMismatchFinding, SEVERITIES]
                  · cases hkv
                    cases hg
                · cases hkv
                  cases hg

theorem sym_sev (a b : Option Json) :
    ∀ l, check_emporium_vs_site a b = .ok l → ∀ f ∈ l, f.severity ∈ SEVERITIES := by
  intro l h f hf
  unfold check_emporium_vs_site at h
  split at h
  · cases h
    cases hf
  · dsimp only at h
    split at h
    · cases h
    · split at h
      · cases h
      · split at h
        · cases h
        · split at h
          · cases h
          · split at h
            · cases h
            · split at h
              · cases h
              · cases h
                rcases List.mem_append.mp hf with hm | hm
                · rcases List.mem_map.mp hm with ⟨m, _, rfl⟩
                  simp [inEmporiumOnlyFinding, SEVERITIES]
                · rcases List.mem_map.mp hm with ⟨m, _, rfl⟩
                  simp [inSiteOnlyFinding, SEVERITIES]

theorem meta_sev (a b : Option Json) :
    ∀ l, check_site_meta_completeness a b = .ok l → ∀ f ∈ l, f.severity ∈ SEVERITIES := by
  intro l h f hf
  unfold check_site_meta_completeness at h
  split at h
  · cases h
    cases hf
  · dsimp only at h
    split at h
    · cases h
    · split at h
      · cases h
      · split at h
        · cases h
        · refine collectM_all _ (fun g => g.severity ∈ SEVERITIES) ?_ _ _ h f hf
          intro p l2 hp g hg
          split at hp
          · cases hp
          · split at hp
            · cases hp
            · split at hp
              · cases hp
                rcases List.mem_singleton.mp hg with rfl
                simp [noMetaEntryFinding, SEVERITIES]
              · split at hp
                · cases hp
                · split at hp
                  · cases hp
                  · split at hp
                    · cases hp
                    · cases hp
                      rcases List.mem_append.mp hg with hm | hm
                      · split at hm
                        · rcases List.mem_singleton.mp hm with rfl
                          simp [noMetaVersionFinding, SEVERITIES]
                        · cases hm
                      · split at hm
                        · rcases List.mem_singleton.mp hm with rfl
                          simp [noMetaTagsFinding, SEVERITIES]
                        · cases hm

theorem bucket_step_keys (acc : List (String × List Finding)) (f : Finding) :
    ((acc.map fun kv => if kv.1 = f.severity then (kv.1, kv.2 ++ [f]) else kv).map Prod.fst) =
      acc.map Prod.fst := by
  induction acc with
  | nil => rfl
  | cons kv rest ih =>
      simp only [List.map_cons, ih]
      congr 1
      split <;> rfl

theorem map_ite_id (sev : String) (f : Finding) :
    ∀ rest : List (String × List Finding), sev ∉ rest.map Prod.fst →
      rest.map (fun kv => if kv.1 = sev then (kv.1, kv.2 ++ [f]) else kv) = rest
  | [], _ => rfl
  | kv :: rest, h => by
      have hk : kv.1 ≠ sev := by
        intro hc
        exact h (by rw [← hc]; exact List.mem_map_of_mem _ (List.mem_cons_self _ _))
      have hrest : sev ∉ rest.map Prod.fst := by
        intro hc
        exact h (by rw [List.map_cons]; exact List.mem_cons_of_mem _ hc)
      simp only [List.map_cons, if_neg hk, map_ite_id sev f rest hrest]

theorem bucket_step_sum (f : Finding) :
    ∀ acc : List (String × List Finding),
      List.count f.severity (acc.map Prod.fst) = 1 →
      ((acc.map fun kv => if kv.1 = f.severity then (kv.1, kv.2 ++ [f]) else kv).map
        fun kv => kv.2.length).sum = ((acc.map fun kv => kv.2.length).sum) + 1
  | [], hcount => by simp at hcount
  | kv :: rest, hcount => by
      rw [List.map_cons, List.count_cons] at hcount
      by_cases hk : kv.1 = f.severity
      · have hbeq : (kv.1 == f.severity) = true := by
          simp [hk]
        rw [hbeq, if_pos rfl] at hcount
        have hrest : List.count f.severity (rest.map Prod.fst) = 0 := by omega
        have hnm : f.severity ∉ rest.map Prod.fst := by
          intro hc
          rw [List.count_eq_zero] at hrest
          exact hrest hc
        simp only [List.map_cons, if_pos hk, map_ite_id f.severity f rest hnm,
          List.sum_cons, List.length_append, List.length_singleton]
        omega
      · have hbeq : (kv.1 == f.severity) = false := by
          simp [hk]
        rw [hbeq, if_neg (by simp)] at hcount
        simp only [List.map_cons, if_neg hk, List.sum_cons]
        rw [bucket_step_sum f rest (by omega)]
        omega

theorem groupBy_total : ∀ (fs : List Finding) (acc : List (String × List Finding)),
    acc.map Prod.fst = SEVERITIES →
    (∀ f ∈ fs, f.severity ∈ SEVERITIES) →
    ∃ bs, List.foldlM bucketAppend acc fs = .ok bs ∧ bs.map Prod.fst = SEVERITIES ∧
      (bs.map fun kv => kv.2.length).sum = (acc.map fun kv => kv.2.length).sum + fs.length
  | [], acc, hk, _ => ⟨acc, rfl, hk, by simp⟩
  | f :: fs, acc, hk, hv => by
      have hsev : f.severity ∈ SEVERITIES := hv f (List.mem_cons_self f fs)
      have hmem : f.severity ∈ acc.map Prod.fst := by rw [hk]; exact hsev
      have hany : (acc.any fun kv => kv.1 = f.severity) = true := by
        rw [List.any_eq_true]
        rcases List.mem_map.mp hmem with ⟨kv, hkv, heq⟩
        exact ⟨kv, hkv, by simp [heq]⟩
      have hcount : List.count f.severity (acc.map Prod.fst) = 1 := by
        rw [hk]
        exact List.count_eq_one_of_mem (by decide) hsev
      have hstep : bucketAppend acc f =
          .ok (acc.map fun kv => if kv.1 = f.severity then (kv.1, kv.2 ++ [f]) else kv) := by
        simp only [bucketAppend, hany, if_pos]
      obtain ⟨bs, hbs, hkeys, hsum⟩ := groupBy_total fs
        (acc.map fun kv => if kv.1 = f.severity then (kv.1, kv.2 ++ [f]) else kv)
        (by rw [bucket_step_keys, hk]) (fun g hg => hv g (List.mem_cons_of_mem _ hg))
      refine ⟨bs, ?_, hkeys, ?_⟩
      · rw [List.foldlM_cons, hstep]
        exact hbs
      · rw [hsum, bucket_step_sum f acc hcount, List.length_cons]
        omega

theorem groupBySeverity_total (fs : List Finding)
    (hv : ∀ f ∈ fs, f.severity ∈ SEVERITIES) :
    ∃ bs, groupBySeverity fs = .ok bs ∧ bs.map Prod.fst = SEVERITIES ∧
      (bs.map fun kv => kv.2.length).sum = fs.length := by
  obtain ⟨bs, h1, h2, h3⟩ := groupBy_total fs
    [("CRITICAL", []), ("HIGH", []), ("MEDIUM", []), ("LOW", [])] (by decide) hv
  exact ⟨bs, h1, h2, by simpa using h3⟩

theorem runChecks_sev (d : RunData) :
    ∀ l, runChecks d = .ok l → ∀ f ∈ l, f.severity ∈ SEVERITIES := by
  intro l h f hf
  unfold runChecks at h
  split at h
  · cases h
  · rename_i perUnit hper
    split at h
    · cases h
    · rename_i g1 hg1
      split at h
      · cases h
      · rename_i g2 hg2
        split at h
        · cases h
        · rename_i g3 hg3
          cases h
          rcases List.mem_append.mp hf with hm | hm4
          · rcases List.mem_append.mp hm with hm2 | hm3
            · rcases List.mem_append.mp hm2 with hm0 | hm1
              · refine collectM_all _ (fun g => g.severity ∈ SEVERITIES) ?_ _ _ hper f hm0
                intro u l2 hu g hg
                split at hu
                · cases hu
                · rename_i la hla
                  split at hu
                  · cases hu
                  · rename_i lb hlb
                    split at hu
                    · cases hu
                    · rename_i lc hlc
                      cases hu
                      rcases List.mem_append.mp hg with hma | hmc
                      · rcases List.mem_append.mp hma with hma2 | hmb
                        · exact schema_sev u la hla g hma2
                        · exact components_sev u lb hlb g hmb
                      · exact version_sev u d.site_meta lc hlc g hmc
              · exact desc_sev d.site_marketplace d.emporium_marketplace g1 hg1 f hm1
            · exact sym_sev d.site_marketplace d.emporium_marketplace g2 hg2 f hm3
          · exact meta_sev d.site_marketplace d.site_meta g3 hg3 f hm4

/-- Claim C8: every finding any rule evaluator ever returns has one of the
four severities CRITICAL, HIGH, MEDIUM, LOW, and consequently the grouping
of findings by severity in main is total: it raises nothing and the
per-severity bucket lengths sum to the total finding count. -/
theorem claim8_severity_total :
    (∀ (u : PluginUnit) (l : List Finding), check_plugin_json_schema u = .ok l →
      ∀ f ∈ l, f.severity ∈ SEVERITIES) ∧
    (∀ (u : PluginUnit) (l : List Finding), check_marketplace_components u = .ok l →
      ∀ f ∈ l, f.severity ∈ SEVERITIES) ∧
    (∀ (u : PluginUnit) (sm : Option Json) (l : List Finding),
      check_version_consistency u sm = .ok l → ∀ f ∈ l, f.severity ∈ SEVERITIES) ∧
    (∀ (a b : Option Json) (l : List Finding), check_description_consistency a b = .ok l →
      ∀ f ∈ l, f.severity ∈ SEVERITIES) ∧
    (∀ (a b : Option Json) (l : List Finding), check_emporium_vs_site a b = .ok l →
      ∀ f ∈ l, f.severity ∈ SEVERITIES) ∧
    (∀ (a b : Option Json) (l : List Finding), check_site_meta_completeness a b = .ok l →
      ∀ f ∈ l, f.severity ∈ SEVERITIES) ∧
    (∀ fs : List Finding, (∀ f ∈ fs, f.severity ∈ SEVERITIES) →
      ∃ bs, groupBySeverity fs = .ok bs ∧ bs.map Prod.fst = SEVERITIES ∧
        (bs.map fun kv => kv.2.length).sum = fs.length) :=
  ⟨schema_sev, components_sev, version_sev, desc_sev, sym_sev, meta_sev,
    groupBySeverity_total⟩

theorem claim8_witness :
    ∃ bs, groupBySeverity [noManifestFinding "solo"] = .ok bs ∧
      bs.map Prod.fst = SEVERITIES ∧ (bs.map fun kv => kv.2.length).sum = 1 :=
  claim8_severity_total.2.2.2.2.2.2 [noManifestFinding "solo"] (by decide)

/-- Claim C1: whenever the finding collection of a run completes, main
returns exit status 1 when some accumulated finding has severity CRITICAL
or HIGH and 0 otherwise, in both output modes; in particular an empty
finding list always yields 0.  Runs aborted by an exception return no exit
status and are outside the claim. -/
theorem claim1_exit_status (d : RunData) (jm : Bool) (l : List Finding)
    (h : runChecks d = .ok l) :
    main_model d jm = .ok (if has_blocking l then 1 else 0) ∧
    (main_model d jm = .ok 0 ↔ has_blocking l = false) := by
  have hmain : main_model d jm = .ok (if has_blocking l then 1 else 0) := by
    simp only [main_model, h]
    by_cases hjm : jm
    · simp [hjm]
    · simp only [hjm, Bool.false_eq_true, if_false]
      by_cases hemp : l.isEmpty
      · rw [List.isEmpty_iff] at hemp
        subst hemp
        simp [has_blocking]
      · obtain ⟨bs, hbs, _, _⟩ := groupBySeverity_total l (runChecks_sev d l h)
        simp [hemp, hbs]
  refine ⟨hmain, ?_⟩
  rw [hmain]
  constructor
  · intro he
    injection he with he2
    by_cases hb : has_blocking l
    · rw [if_pos hb] at he2
      cases he2
    · simpa using hb
  · intro hb
    rw [hb]
    rfl

theorem claim1_witness :
    main_model ⟨[], none, none, none⟩ false = .ok 0 ∧ has_blocking [] = false :=
  ⟨((claim1_exit_status ⟨[], none, none, none⟩ false [] rfl).1).trans rfl, rfl⟩

/-! ## Claim C9: well-formed listings with a missing name key abort the run -/

/-- Site marketplace listing of the C9 instance: well-formed JSON whose
single plugins entry lacks the name key. -/
def siteMktC9 : Option Json :=
  some (.obj [("plugins", .arr [.obj [("description", .str "d")]])])

/-- Emporium marketplace listing of the C9 instance, fully well-shaped. -/
def empMktC9 : Option Json :=
  some (.obj [("plugins", .arr [.obj [("name", .str "x"), ("description", .str "d")]])])

/-- Run data of the C9 instance. -/
def runC9 : RunData := ⟨[], none, siteMktC9, empMktC9⟩

/-- Claim C9: for a syntactically valid marketplace listing whose plugins
entry lacks the name key, each global rule that subscripts the key raises
KeyError instead of skipping or reporting, and the whole run aborts with an
error before any finding is printed, although the file parsed fine and the
fatal tier of the spec covers only malformed content. -/
theorem claim9_missing_name_aborts :
    check_description_consistency siteMktC9 empMktC9 = .error (.keyError "name") ∧
    check_emporium_vs_site siteMktC9 empMktC9 = .error (.keyError "name") ∧
    check_site_meta_completeness siteMktC9
      (some (.obj [("plugins", .obj [("x", .obj [])])])) = .error (.keyError "name") ∧
    main_model runC9 false = .error (.keyError "name") :=
  ⟨rfl, rfl, rfl, rfl⟩

/-- Claim C10: a loaded source that is falsy (for example an empty object
or null) is treated by the version rule exactly as an absent file, and each
global rule returns no finding as soon as either of its two sources is
absent or falsy. -/
theorem claim10_falsy_as_absent :
    (∀ (u : PluginUnit) (j : Json), j.truthy = false →
      check_version_consistency u (some j) = check_version_consistency u none) ∧
    (∀ a b : Option Json, truthyOpt a = false ∨ truthyOpt b = false →
      check_description_consistency a b = .ok []) ∧
    (∀ a b : Option Json, truthyOpt a = false ∨ truthyOpt b = false →
      check_emporium_vs_site a b = .ok []) ∧
    (∀ a b : Option Json, truthyOpt a = false ∨ truthyOpt b = false →
      check_site_meta_completeness a b = .ok []) := by
  refine ⟨?_, ?_, ?_, ?_⟩
  · intro u j hj
    simp only [check_version_consistency]
    cases hpj : u.plugin_json with
    | none => rfl
    | some pj =>
      cases hget : pyGetD pj "version" Json.null with
      | error e => simp only [hget]
      | ok cv =>
        simp only [hget]
        cases cv with
        | str v =>
          by_cases hv : v = ""
          · simp [hv]
          · simp [hv, hj]
        | null => rfl
        | bool b => rfl
        | num n => rfl
        | arr xs => rfl
        | obj o => rfl
  · intro a b hab
    unfold check_description_consistency
    rcases hab with ha | hb2
    · simp [ha]
    · simp [hb2]
  · intro a b hab
    unfold check_emporium_vs_site
    rcases hab with ha | hb2
    · simp [ha]
    · simp [hb2]
  · intro a b hab
    unfold check_site_meta_completeness
    rcases hab with ha | hb2
    · simp [ha]
    · simp [hb2]

theorem claim10_witness :
    check_version_consistency unitC2 (some (.obj [])) =
      check_version_consistency unitC2 none ∧
    check_description_consistency (some (.obj [])) empMktC6 = .ok [] ∧
    check_emporium_vs_site siteMktC6 (some (.str "")) = .ok [] ∧
    check_site_meta_completeness none (some (.obj [])) = .ok [] :=
  ⟨claim10_falsy_as_absent.1 unitC2 _ rfl,
    claim10_falsy_as_absent.2.1 _ _ (Or.inl rfl),
    claim10_falsy_as_absent.2.2.1 _ _ (Or.inr rfl),
    claim10_falsy_as_absent.2.2.2 _ _ (Or.inl rfl)⟩
